import Mathlib

/-!
Verification of the collection-orchestrator core of `crm_parser_api`.

The Python sources under `src/` are shallowly embedded below:
* `src/collector/normalizer.py` — `CRM.normalize` (phone normalization);
* `src/database/manager.py` — the `CRM.Db` operations;
* `src/collector/state_manager.py` — the `CRM.Checkpoint` state, kept in
  `CRM.W.ckpt` (the persisted file is modelled as an optional in-memory value);
* `src/collector/orchestrator.py` — `CRM.seqCollect` and its loops;
* `src/collector/parallel_orchestrator.py` — `CRM.parCollect`,
  `CRM.parProcessClient` and their loops.

External collaborators (HTTP transport, the `phonenumbers` library, SQLite,
the thread pool) are modelled as explicit environments: `CRM.Env` supplies the
remote API results, the cancellation predicate (as a function of the number of
times it has been polled) and the numbering-plan validity predicate.  The
parallel orchestrator is embedded as the sequentialisation in which each
client's unit of work runs to completion immediately before the driving loop
collects it — a legal schedule of the worker pool (it is the one realised with
one worker); true thread interleavings are outside the embedding.  Outbound
effects are recorded in an event trace (`CRM.Ev`) so that ordering properties
(rate limiting, pagination, status writes) can be stated.
-/

namespace CRM

/-! ## Phone normalizer (src/collector/normalizer.py)

The normalizer works on the character list of the raw string.  The
`phonenumbers` library is an external collaborator; `parseRU` models
`phonenumbers.parse(digits, "RU")` — a string with a leading plus sign is
an international number (only the Russian country code 7 can occur here,
because the plus sign is only ever prefixed to digit strings starting with 7),
anything else is a national number with country code 7 — and the
numbering-plan validity test `is_valid_number` is an arbitrary predicate on
the national number, over which all theorems are universally quantified. -/

/-- `''.join(filter(str.isdigit, raw_phone))` -/
def digitsOf (l : List Char) : List Char := l.filter Char.isDigit

/-- `if digits.startswith('8') and len(digits) == 11: digits = '7' + digits[1:]` -/
def trunkRewrite (ds : List Char) : List Char :=
  match ds with
  | [] => []
  | c :: rest => if c = '8' ∧ rest.length = 10 then '7' :: rest else c :: rest

/-- `if digits.startswith('7'): digits = '+' + digits` -/
def plusForm (ds : List Char) : List Char :=
  match ds with
  | [] => []
  | c :: rest => if c = '7' then '+' :: c :: rest else c :: rest

/-- `phonenumbers.parse(digits, "RU")`, modelled: returns the national-number
digits; a parse failure is `none`.  A leading `+` must be followed by the
country code 7 (the only shape the normalizer ever produces); without `+` the
whole string is the national number for region RU. -/
def parseRU (s : List Char) : Option (List Char) :=
  match s with
  | [] => none
  | c :: rest =>
      if c = '+' then
        match rest with
        | [] => none
        | c2 :: rest2 => if c2 = '7' then some rest2 else none
      else some (c :: rest)

/-- `PhoneNormalizer.normalize`, on character lists.  `valid` models
`phonenumbers.is_valid_number` restricted to country code 7; the E.164
format of a valid number is `'+' :: '7' :: national`. -/
def normalizeCore (valid : List Char → Bool) (raw : List Char) :
    Option (List Char) × Bool :=
  if raw = [] then (none, false)
  else
    match parseRU (plusForm (trunkRewrite (digitsOf raw))) with
    | some nat => if valid nat then (some ('+' :: '7' :: nat), true) else (none, false)
    | none => (none, false)

/-- `PhoneNormalizer.normalize` on strings. -/
def normalize (valid : List Char → Bool) (raw : String) : Option String × Bool :=
  match normalizeCore valid raw.toList with
  | (some c, b) => (some (String.mk c), b)
  | (none, b) => (none, b)

lemma digitsOf_isDigit {l : List Char} {c : Char} (h : c ∈ digitsOf l) :
    c.isDigit = true := (List.mem_filter.mp h).2

lemma digitsOf_eq_self {l : List Char} (h : ∀ c ∈ l, c.isDigit = true) :
    digitsOf l = l := List.filter_eq_self.mpr h

lemma trunkRewrite_isDigit {ds : List Char}
    (h : ∀ c ∈ ds, c.isDigit = true) : ∀ c ∈ trunkRewrite ds, c.isDigit = true := by
  intro c hc
  cases ds with
  | nil => simp [trunkRewrite] at hc
  | cons a rest =>
      by_cases hcond : a = '8' ∧ rest.length = 10
      · simp only [trunkRewrite, if_pos hcond] at hc
        rcases List.mem_cons.mp hc with h7 | hrest
        · subst h7; decide
        · exact h c (List.mem_cons_of_mem a hrest)
      · simp only [trunkRewrite, if_neg hcond] at hc
        exact h c hc

/-- The national number returned by `parseRU` on a plus-formed digit string
consists of digits. -/
lemma parseRU_plusForm_digits {ds nat : List Char}
    (hd : ∀ c ∈ ds, c.isDigit = true)
    (h : parseRU (plusForm ds) = some nat) : ∀ c ∈ nat, c.isDigit = true := by
  cases ds with
  | nil => simp [plusForm, parseRU] at h
  | cons a rest =>
      have ha : a.isDigit = true := hd a (List.mem_cons_self a rest)
      have haplus : ¬ a = '+' := by
        intro hEq; rw [hEq] at ha; simp at ha
      by_cases h7 : a = '7'
      · subst h7
        have hcalc : parseRU (plusForm ('7' :: rest)) = some rest := by
          simp [plusForm, parseRU]
        rw [hcalc] at h
        cases Option.some.inj h
        exact fun c hc => hd c (List.mem_cons_of_mem _ hc)
      · have hcalc : parseRU (plusForm (a :: rest)) = some (a :: rest) := by
          simp [plusForm, h7, parseRU, haplus]
        rw [hcalc] at h
        cases Option.some.inj h
        exact hd

/-- A successful normalization yields `'+' :: '7' :: nat` for a national
number `nat` consisting of digits only, accepted by `valid`. -/
lemma normalizeCore_shape {valid : List Char → Bool} {raw c : List Char}
    (h : normalizeCore valid raw = (some c, true)) :
    ∃ nat, c = '+' :: '7' :: nat ∧ valid nat = true ∧ ∀ ch ∈ nat, ch.isDigit = true := by
  by_cases hraw : raw = []
  · simp [normalizeCore, hraw] at h
  · have hd : ∀ ch ∈ trunkRewrite (digitsOf raw), ch.isDigit = true :=
      trunkRewrite_isDigit (fun ch hch => digitsOf_isDigit hch)
    simp only [normalizeCore, if_neg hraw] at h
    rcases hp : parseRU (plusForm (trunkRewrite (digitsOf raw))) with _ | nat
    · rw [hp] at h
      have h2 : ((none, false) : Option (List Char) × Bool) = (some c, true) := h
      simp at h2
    · rw [hp] at h
      have h2 : (if valid nat = true then
          ((some ('+' :: '7' :: nat), true) : Option (List Char) × Bool)
          else (none, false)) = (some c, true) := h
      by_cases hv : valid nat = true
      · refine ⟨nat, ?_, hv, parseRU_plusForm_digits hd hp⟩
        rw [if_pos hv] at h2
        exact (Option.some.inj (congrArg Prod.fst h2)).symm
      · rw [if_neg hv] at h2
        exact absurd (congrArg Prod.snd h2) (by simp)

/-- `normalizeCore` either succeeds with `true` or fails with `(none, false)`. -/
lemma normalizeCore_cases (valid : List Char → Bool) (raw : List Char) :
    (∃ c, normalizeCore valid raw = (some c, true)) ∨
      normalizeCore valid raw = (none, false) := by
  by_cases hraw : raw = []
  · right; simp [normalizeCore, hraw]
  · simp only [normalizeCore, if_neg hraw]
    cases parseRU (plusForm (trunkRewrite (digitsOf raw))) with
    | none => right; rfl
    | some nat =>
        by_cases hv : valid nat = true
        · exact Or.inl ⟨'+' :: '7' :: nat, by simp [hv]⟩
        · right; simp only [Bool.not_eq_true] at hv; simp [hv]

/-- Re-normalizing a canonical value `'+' :: '7' :: nat` reproduces it. -/
lemma normalizeCore_canonical {valid : List Char → Bool} {nat : List Char}
    (hdig : ∀ ch ∈ nat, ch.isDigit = true) (hv : valid nat = true) :
    normalizeCore valid ('+' :: '7' :: nat) = (some ('+' :: '7' :: nat), true) := by
  have hne : ¬ ('+' :: '7' :: nat : List Char) = [] := by simp
  have hfilter : digitsOf ('+' :: '7' :: nat) = '7' :: nat := by
    have h7 : ('7' : Char).isDigit = true := by decide
    have hplus : ('+' : Char).isDigit = false := by decide
    simp only [digitsOf, List.filter_cons, hplus, h7]
    exact congrArg (List.cons '7') (digitsOf_eq_self hdig)
  have htrunk : trunkRewrite ('7' :: nat) = '7' :: nat := by
    have : ¬ (('7' : Char) = '8' ∧ nat.length = 10) := by
      intro hand; exact absurd hand.1 (by decide)
    simp [trunkRewrite, this]
  have hplusf : plusForm ('7' :: nat) = '+' :: '7' :: nat := by
    simp [plusForm]
  simp only [normalizeCore, if_neg hne, hfilter, htrunk, hplusf, parseRU]
  simp [hv]

/-- C9. `normalize` is deterministic, and idempotent on valid outputs:
whenever `normalize valid x` is valid with canonical value `c`,
`normalize valid c` returns the same result. -/
theorem normalize_deterministic_idempotent (valid : List Char → Bool) (x : String) :
    normalize valid x = normalize valid x ∧
    ((normalize valid x).2 = true →
      normalize valid (((normalize valid x).1).getD "") = normalize valid x) := by
  refine ⟨rfl, fun hvalid => ?_⟩
  rcases normalizeCore_cases valid x.data with ⟨c, hcore⟩ | hcore
  · rcases normalizeCore_shape hcore with ⟨nat, hc, hv, hdig⟩
    subst hc
    have hmk : (String.mk ('+' :: '7' :: nat)).data = '+' :: '7' :: nat := rfl
    simp only [normalize, String.toList, hcore, Option.getD_some, hmk,
      normalizeCore_canonical hdig hv]
  · simp [normalize, String.toList, hcore] at hvalid

/-- Validity predicate used for the concrete witness: a ten-digit national
number (the modelled Russian numbering plan shape). -/
def vTen : List Char → Bool := fun l => l.length == 10

/-- Witness for C9 at the concrete raw input `"8 (912) 345-67-89"`. -/
theorem normalize_deterministic_idempotent_witness :
    (normalize vTen "8 (912) 345-67-89").2 = true ∧
    normalize vTen (((normalize vTen "8 (912) 345-67-89").1).getD "") =
      normalize vTen "8 (912) 345-67-89" :=
  ⟨by decide, (normalize_deterministic_idempotent vTen "8 (912) 345-67-89").2 (by decide)⟩

/-! ## Data model and store (src/api/client.py, src/database/manager.py)

The SQLite store is modelled as in-memory lists of rows.  `schema.sql` is
absent from the sources; the `INSERT OR IGNORE` upserts are modelled from the
spec as idempotent inserts keyed by the row identity. -/

/-- `Client` dataclass of src/api/client.py. -/
structure ClientT where
  id : Nat
  username : String
  deriving DecidableEq, Repr

/-- `Project` dataclass of src/api/client.py 
(`client_id` is supplied separately at the insert sites). -/
structure ProjectT where
  id : Nat
  name : String
  deriving DecidableEq, Repr

/-- `PhoneRecord` dataclass of src/api/client.py. -/
structure PhoneRec where
  phone : String
  created_at : String
  deriving DecidableEq, Repr

/-- A row of the `phones` table. -/
structure PhoneRow where
  id : Nat
  phone : String
  original_format : String
  first_run_id : Nat
  deriving DecidableEq, Repr

/-- A row of the `project_phones` table. -/
structure LinkRow where
  project_id : Nat
  phone_id : Nat
  run_id : Nat
  created_at_api : String
  deriving DecidableEq, Repr

/-- A row of the `runs` table (`started_at`/`completed_at` timestamps are not
modelled; no claim concerns them). -/
structure RunRow where
  id : Nat
  status : String
  total_phones : Nat
  new_phones : Nat
  errors_count : Nat
  deriving DecidableEq, Repr

/-- The store state (`DatabaseManager`); `nextRunId`/`nextPhoneId` model the
SQLite rowid allocation. -/
structure Db where
  clients : List (Nat × String)
  projects : List (Nat × String × Nat)
  phones : List PhoneRow
  links : List LinkRow
  runs : List RunRow
  nextRunId : Nat
  nextPhoneId : Nat
  deriving DecidableEq, Repr

/-- `DatabaseManager.create_run`: insert a `running` row, return its rowid. -/
def Db.create_run (db : Db) : Nat × Db :=
  (db.nextRunId,
   { db with runs := db.runs ++ [⟨db.nextRunId, "running", 0, 0, 0⟩],
             nextRunId := db.nextRunId + 1 })

/-- `DatabaseManager.get_phone_by_number`. -/
def Db.get_phone_by_number (db : Db) (phone : String) : Option PhoneRow :=
  db.phones.find? (fun r => r.phone == phone)

/-- `DatabaseManager.insert_phone`: plain INSERT, returns the new rowid. -/
def Db.insert_phone (db : Db) (phone original : String) (runId : Nat) : Nat × Db :=
  (db.nextPhoneId,
   { db with phones := db.phones ++ [⟨db.nextPhoneId, phone, original, runId⟩],
             nextPhoneId := db.nextPhoneId + 1 })

/-- `DatabaseManager.insert_client` (`INSERT OR IGNORE`, primary key `id`;
modelled from the spec: idempotent upsert keyed by the client id). -/
def Db.insert_client (db : Db) (clientId : Nat) (username : String) : Db :=
  if db.clients.any (fun c => c.1 == clientId) then db
  else { db with clients := db.clients ++ [(clientId, username)] }

/-- `DatabaseManager.insert_project` (`INSERT OR IGNORE`, primary key `id`;
modelled from the spec: idempotent upsert keyed by the project id). -/
def Db.insert_project (db : Db) (projectId : Nat) (name : String) (clientId : Nat) : Db :=
  if db.projects.any (fun p => p.1 == projectId) then db
  else { db with projects := db.projects ++ [(projectId, name, clientId)] }

/-- `DatabaseManager.insert_project_phone` (`INSERT OR IGNORE`; modelled from
the spec: re-observing the same link is a no-op). -/
def Db.insert_project_phone (db : Db) (projectId phoneId runId : Nat)
    (createdAt : String) : Db :=
  if db.links.any (fun l =>
      l.project_id == projectId && l.phone_id == phoneId &&
      l.run_id == runId && l.created_at_api == createdAt) then db
  else { db with links := db.links ++ [⟨projectId, phoneId, runId, createdAt⟩] }

/-- `DatabaseManager.update_run_stats`. -/
def Db.update_run_stats (db : Db) (runId total new : Nat) (status : String)
    (errorsCount : Nat) : Db :=
  { db with runs := db.runs.map (fun r =>
      if r.id == runId then
        { r with total_phones := total, new_phones := new,
                 errors_count := errorsCount, status := status }
      else r) }

/-! ## Run statistics and checkpoint (src/collector/state_manager.py) -/

/-- The `stats` dict.  The sequential orchestrator's dict has no
`projects_count` key; that field stays untouched (zero) on its paths. -/
structure Stats where
  total_phones : Nat
  new_phones : Nat
  errors : Nat
  projects_count : Nat
  deriving DecidableEq, Repr

/-- `{'total_phones': 0, 'new_phones': 0, 'errors': 0}` (parallel adds
`'projects_count': 0`). -/
def zeroStats : Stats := ⟨0, 0, 0, 0⟩

/-- The persisted state file written by `StateManager.save`. -/
structure Checkpoint where
  run_id : Nat
  total_clients : Nat
  processed_clients : Nat
  processed_client_ids : List Nat
  stats : Stats
  deriving DecidableEq, Repr

/-! ## Event trace and world state -/

/-- Observable events of one `collect` invocation: outbound API fetches,
store upserts touching the traversal, `time.sleep(self.rate_limit)` delays,
`RateLimiter.wait` calls, run-status writes and checkpoint writes. -/
inductive Ev where
  | fetchClients : Ev
  | fetchProjects (clientId : Nat) : Ev
  | fetchPhones (projectId page : Nat) : Ev
  | sleepDelay : Ev
  | rlWait : Ev
  | upsertClient (id : Nat) : Ev
  | upsertProject (id : Nat) : Ev
  | setRunStatus (runId : Nat) (status : String) : Ev
  | saveState : Ev
  | clearState : Ev
  deriving DecidableEq, Repr

/-- The world threaded through a `collect` invocation: store, persisted
checkpoint file, event trace, and the number of times the stop callback has
been polled (the callback is modelled as a function of that count). -/
structure W where
  db : Db
  ckpt : Option Checkpoint
  trace : List Ev
  polls : Nat
  deriving DecidableEq, Repr

/-- Append an event to the trace. -/
def emit (e : Ev) (w : W) : W := { w with trace := w.trace ++ [e] }

/-- The environment: results of the external API, the stop callback (as a
function of the poll count) and the numbering-plan validity predicate.
`phonePages projectId` lists the successive page results; pages beyond the
list are empty (`Except.ok []`), the end-of-data sentinel. -/
structure Env where
  clientsResult : Except Unit (List ClientT)
  projectsOf : Nat → Except Unit (List ProjectT)
  phonePages : Nat → List (Except Unit (List PhoneRec))
  stopSignal : Nat → Bool
  valid : List Char → Bool

/-- `self.api.get_phones(project_id, page)`. -/
def getPage (env : Env) (projectId page : Nat) : Except Unit (List PhoneRec) :=
  (env.phonePages projectId).getD (page - 1) (Except.ok [])

/-- `if stop_callback and stop_callback()`: polls only when a callback was
supplied, advancing the poll counter. -/
def poll (env : Env) (hasStop : Bool) (w : W) : Bool × W :=
  if hasStop then (env.stopSignal w.polls, { w with polls := w.polls + 1 })
  else (false, w)

/-- Python truthiness of an `int | None` parameter. -/
def pyTruthy (l : Option Nat) : Bool :=
  match l with
  | none => false
  | some n => n != 0

/-- `if limit: xs = xs[:limit]` — the truthiness-guarded truncation applied
to the client and project lists (orchestrator.py lines 52-53 and 89-90). -/
def applyLimit (l : Option Nat) (xs : List α) : List α :=
  if pyTruthy l then xs.take (l.getD 0) else xs

/-- `if max_pages and page > max_pages` (orchestrator.py line 109,
parallel_orchestrator.py line 266). -/
def pageBreak (l : Option Nat) (page : Nat) : Bool :=
  pyTruthy l && decide (l.getD 0 < page)

/-- `StateManager.save` with the arguments used by both orchestrators. -/
def saveCkpt (runId totalClients : Nat) (p : List Nat) (s : Stats) (w : W) : W :=
  { w with ckpt := some ⟨runId, totalClients, p.length, p, s⟩,
           trace := w.trace ++ [Ev.saveState] }

/-- `self.db.update_run_stats(run_id, stats['total_phones'],
stats['new_phones'], status, stats['errors'])`. -/
def updRun (runId : Nat) (s : Stats) (status : String) (w : W) : W :=
  { w with db := w.db.update_run_stats runId s.total_phones s.new_phones status s.errors,
           trace := w.trace ++ [Ev.setRunStatus runId status] }

/-- `StateManager.clear`. -/
def clearCkpt (w : W) : W :=
  { w with ckpt := none, trace := w.trace ++ [Ev.clearState] }

/-- Result of a Python call: normal return value (`none` models Python
`None`), `KeyboardInterrupt`, or an `Exception`. -/
inductive PyRes where
  | ok (v : Option String)
  | kb
  | exc
  deriving DecidableEq, Repr

/-! ## Sequential orchestrator (src/collector/orchestrator.py) -/

/-- Outcome of a fragment of the per-client `try` body: normal completion,
an `Exception` (caught per client), or a `KeyboardInterrupt` raised by the
in-pagination stop check (not caught per client). -/
inductive StepRes where
  | ok (s : Stats) (w : W)
  | exc (s : Stats) (w : W)
  | kb (s : Stats) (w : W)
  deriving DecidableEq, Repr

/-- One phone record (orchestrator.py lines 125-138): normalize, skip when
invalid, insert the phone when its canonical value is absent (counting a new
phone), link it to the project, count the observation. -/
def processPhone (valid : List Char → Bool) (runId projectId : Nat) (rec : PhoneRec)
    (s : Stats) (w : W) : Stats × W :=
  match normalize valid rec.phone with
  | (some e164, true) =>
      match w.db.get_phone_by_number e164 with
      | none =>
          let pr := w.db.insert_phone e164 rec.phone runId
          let s1 := { s with new_phones := s.new_phones + 1 }
          let db2 := pr.2.insert_project_phone projectId pr.1 runId rec.created_at
          ({ s1 with total_phones := s1.total_phones + 1 }, { w with db := db2 })
      | some row =>
          let db2 := w.db.insert_project_phone projectId row.id runId rec.created_at
          ({ s with total_phones := s.total_phones + 1 }, { w with db := db2 })
  | _ => (s, w)

/-- `for phone_data in phones: ...` -/
def processPhones (valid : List Char → Bool) (runId projectId : Nat)
    (recs : List PhoneRec) (s : Stats) (w : W) : Stats × W :=
  match recs with
  | [] => (s, w)
  | r :: rest =>
      let sw := processPhone valid runId projectId r s w
      processPhones valid runId projectId rest sw.1 sw.2

/-- The pagination `while True` loop (orchestrator.py lines 102-141): stop
check (raising `KeyboardInterrupt`), max-page break, fetch, empty-page break,
record processing, then `page += 1` and `time.sleep(self.rate_limit)`.
`fuel` is the embedding's termination device; callers pass
`(env.phonePages projectId).length + 1`, which the loop never exhausts
because pages beyond the list are empty. -/
def seqPageLoop (env : Env) (brk : Nat → Bool) (hasStop : Bool)
    (runId projectId : Nat) (fuel page : Nat) (s : Stats) (w : W) : StepRes :=
  match fuel with
  | 0 => .ok s w
  | fuel + 1 =>
      let pw := poll env hasStop w
      if pw.1 then .kb s pw.2
      else if brk page then .ok s pw.2
      else
        let w := emit (.fetchPhones projectId page) pw.2
        match getPage env projectId page with
        | .error _ => .exc s w
        | .ok [] => .ok s w
        | .ok recs =>
            let sw := processPhones env.valid runId projectId recs s w
            let w := emit .sleepDelay sw.2
            seqPageLoop env brk hasStop runId projectId fuel (page + 1) sw.1 w

/-- `for p_idx, project in enumerate(projects, 1)` (orchestrator.py
lines 95-141): upsert the project then paginate its phones. -/
def seqProjectLoop (env : Env) (brk : Nat → Bool) (hasStop : Bool)
    (runId clientId : Nat) (ps : List ProjectT) (s : Stats) (w : W) : StepRes :=
  match ps with
  | [] => .ok s w
  | p :: rest =>
      let w := { w with db := w.db.insert_project p.id p.name clientId }
      let w := emit (.upsertProject p.id) w
      match seqPageLoop env brk hasStop runId p.id
          ((env.phonePages p.id).length + 1) 1 s w with
      | .ok s w => seqProjectLoop env brk hasStop runId clientId rest s w
      | r => r

/-- The per-client `try` body (orchestrator.py lines 80-154 up to the
checkpoint): upsert the client, fetch its projects (an exception here is the
per-client error), truncate them, sleep once, then run the project loop. -/
def seqClientBody (env : Env) (limP : List ProjectT → List ProjectT)
    (brk : Nat → Bool) (hasStop : Bool) (runId : Nat) (c : ClientT)
    (s : Stats) (w : W) : StepRes :=
  let w := { w with db := w.db.insert_client c.id c.username }
  let w := emit (.upsertClient c.id) w
  let w := emit (.fetchProjects c.id) w
  match env.projectsOf c.id with
  | .error _ => .exc s w
  | .ok ps =>
      let w := emit .sleepDelay w
      seqProjectLoop env brk hasStop runId c.id (limP ps) s w

/-- Outcome of the `for idx, client in enumerate(...)` loop: ran to the end,
returned early on the stop path (checkpoint and `stopped` status already
written), or a propagating `KeyboardInterrupt`. -/
inductive LoopRes where
  | done (s : Stats) (p : List Nat) (w : W)
  | early (s : Stats) (p : List Nat) (w : W)
  | kb (s : Stats) (p : List Nat) (w : W)
  deriving DecidableEq, Repr

/-- The per-client loop (orchestrator.py lines 66-158): stop check with
checkpoint + `stopped` status + early return; the `try` body; `except
Exception` counting one error; marking the client processed and the
every-5-clients checkpoint. -/
def seqClientLoop (env : Env) (limP : List ProjectT → List ProjectT)
    (brk : Nat → Bool) (hasStop : Bool) (runId totalOrig : Nat)
    (cs : List ClientT) (idx : Nat) (s : Stats) (p : List Nat) (w : W) : LoopRes :=
  match cs with
  | [] => .done s p w
  | c :: rest =>
      let pw := poll env hasStop w
      if pw.1 then
        let w := saveCkpt runId totalOrig p s pw.2
        let w := updRun runId s "stopped" w
        .early s p w
      else
        match seqClientBody env limP brk hasStop runId c s pw.2 with
        | .kb s w => .kb s p w
        | .exc s w =>
            seqClientLoop env limP brk hasStop runId totalOrig rest (idx + 1)
              { s with errors := s.errors + 1 } p w
        | .ok s w =>
            let p := p.insert c.id
            let w := if idx % 5 == 0 then saveCkpt runId totalOrig p s w else w
            seqClientLoop env limP brk hasStop runId totalOrig rest (idx + 1) s p w

/-- The result of `CollectionOrchestrator.collect`, together with the final
internal state (run id, stats, processed set) for stating properties. -/
structure SeqOut where
  res : PyRes
  runId : Nat
  stats : Stats
  processed : List Nat
  w : W
  deriving DecidableEq, Repr

/-- The body of `collect` after run/stats initialisation (orchestrator.py
lines 47-182): fetch the client list (failure = the fatal path, marking the
run `failed`), truncate and filter it, run the client loop, then the
completion / early-return / `KeyboardInterrupt` exits. -/
def seqMain (env : Env) (limC : List ClientT → List ClientT)
    (limP : List ProjectT → List ProjectT) (brk : Nat → Bool) (hasStop : Bool)
    (runId : Nat) (s0 : Stats) (p0 : List Nat) (w : W) : SeqOut :=
  let w := emit .fetchClients w
  match env.clientsResult with
  | .error _ => ⟨.exc, runId, s0, p0, updRun runId s0 "failed" w⟩
  | .ok allClients =>
      let totalOrig := allClients.length
      let cs := limC allClients
      let cs := if p0 != [] then cs.filter (fun c => !(p0.contains c.id)) else cs
      match seqClientLoop env limP brk hasStop runId totalOrig cs 1 s0 p0 w with
      | .done s p w =>
          let w := updRun runId s "completed" w
          let w := clearCkpt w
          ⟨.ok none, runId, s, p, w⟩
      | .early s p w => ⟨.ok none, runId, s, p, w⟩
      | .kb s p w =>
          let w := saveCkpt runId totalOrig p s w
          let w := updRun runId s "stopped" w
          ⟨.kb, runId, s, p, w⟩

/-- `CollectionOrchestrator.collect` (orchestrator.py lines 20-182): resume
initialisation (adopting the checkpoint's run id, stats and processed ids, or
falling back to a fresh run) followed by `seqMain`. -/
def seqCollect (env : Env) (limitClients limitProjects maxPages : Option Nat)
    (resume hasStop : Bool) (w : W) : SeqOut :=
  let init : Nat × Stats × List Nat × W :=
    if resume then
      match w.ckpt with
      | some st => (st.run_id, st.stats, st.processed_client_ids.dedup, w)
      | none =>
          let rd := w.db.create_run
          (rd.1, zeroStats, [], { w with db := rd.2 })
    else
      let rd := w.db.create_run
      (rd.1, zeroStats, [], { w with db := rd.2 })
  seqMain env (applyLimit limitClients) (applyLimit limitProjects)
    (pageBreak maxPages) hasStop init.1 init.2.1 init.2.2.1 init.2.2.2

/-! ## Parallel orchestrator (src/collector/parallel_orchestrator.py)

The worker pool is embedded as the sequentialisation in which each client's
unit of work runs to completion immediately before the driving
`as_completed` loop collects it (the schedule realised with one worker).
All workers share one store and one rate limiter, as in the source. -/

/-- The local tally returned by `_process_client`. -/
structure ClientStats where
  phones : Nat
  new_phones : Nat
  projects : Nat
  deriving DecidableEq, Repr

/-- Outcome of (a fragment of) `_process_client`: a normal return with the
local tally, or a propagating `Exception` (the tally is lost, effects on the
store persist). -/
inductive ParStep where
  | ok (cst : ClientStats) (w : W)
  | exc (w : W)
  deriving DecidableEq, Repr

/-- The world carried by a `ParStep`. -/
def ParStep.w : ParStep → W
  | .ok _ w => w
  | .exc w => w

/-- One phone record inside `_process_client`
(parallel_orchestrator.py lines 276-289), accumulating into the local tally. -/
def parProcessPhone (valid : List Char → Bool) (runId projectId : Nat)
    (rec : PhoneRec) (cst : ClientStats) (w : W) : ClientStats × W :=
  match normalize valid rec.phone with
  | (some e164, true) =>
      match w.db.get_phone_by_number e164 with
      | none =>
          let pr := w.db.insert_phone e164 rec.phone runId
          let c1 := { cst with new_phones := cst.new_phones + 1 }
          let db2 := pr.2.insert_project_phone projectId pr.1 runId rec.created_at
          ({ c1 with phones := c1.phones + 1 }, { w with db := db2 })
      | some row =>
          let db2 := w.db.insert_project_phone projectId row.id runId rec.created_at
          ({ cst with phones := cst.phones + 1 }, { w with db := db2 })
  | _ => (cst, w)

/-- `for phone_data in phones` inside `_process_client`. -/
def parProcessPhones (valid : List Char → Bool) (runId projectId : Nat)
    (recs : List PhoneRec) (cst : ClientStats) (w : W) : ClientStats × W :=
  match recs with
  | [] => (cst, w)
  | r :: rest =>
      let cw := parProcessPhone valid runId projectId r cst w
      parProcessPhones valid runId projectId rest cw.1 cw.2

/-- The worker's pagination loop (parallel_orchestrator.py lines 261-291):
stop check (a plain `break`), max-page break, `rate_limiter.wait()`, fetch,
empty-page break, record processing.  `fuel` as in `seqPageLoop`. -/
def parPageLoop (env : Env) (brk : Nat → Bool) (hasStop : Bool)
    (runId projectId : Nat) (fuel page : Nat) (cst : ClientStats) (w : W) : ParStep :=
  match fuel with
  | 0 => .ok cst w
  | fuel + 1 =>
      let pw := poll env hasStop w
      if pw.1 then .ok cst pw.2
      else if brk page then .ok cst pw.2
      else
        let w := emit .rlWait pw.2
        let w := emit (.fetchPhones projectId page) w
        match getPage env projectId page with
        | .error _ => .exc w
        | .ok [] => .ok cst w
        | .ok recs =>
            let cw := parProcessPhones env.valid runId projectId recs cst w
            parPageLoop env brk hasStop runId projectId fuel (page + 1) cw.1 cw.2

/-- The worker's project loop (parallel_orchestrator.py lines 252-291):
stop check (`break`), `rate_limiter.wait()`, project upsert, tally increment,
pagination. -/
def parProjectLoop (env : Env) (brk : Nat → Bool) (hasStop : Bool)
    (runId clientId : Nat) (ps : List ProjectT) (cst : ClientStats) (w : W) : ParStep :=
  match ps with
  | [] => .ok cst w
  | p :: rest =>
      let pw := poll env hasStop w
      if pw.1 then .ok cst pw.2
      else
        let w := emit .rlWait pw.2
        let w := { w with db := w.db.insert_project p.id p.name clientId }
        let w := emit (.upsertProject p.id) w
        let cst := { cst with projects := cst.projects + 1 }
        match parPageLoop env brk hasStop runId p.id
            ((env.phonePages p.id).length + 1) 1 cst w with
        | .ok cst w => parProjectLoop env brk hasStop runId clientId rest cst w
        | .exc w => .exc w

/-- `ParallelOrchestrator._process_client` (lines 209-304): rate-limited
client upsert, rate-limited project fetch (an exception propagates to the
driving loop), then the project loop over the truncated list. -/
def parProcessClient (env : Env) (limP : List ProjectT → List ProjectT)
    (brk : Nat → Bool) (hasStop : Bool) (runId : Nat) (c : ClientT) (w : W) : ParStep :=
  let w := emit .rlWait w
  let w := { w with db := w.db.insert_client c.id c.username }
  let w := emit (.upsertClient c.id) w
  let w := emit .rlWait w
  let w := emit (.fetchProjects c.id) w
  match env.projectsOf c.id with
  | .error _ => .exc w
  | .ok ps => parProjectLoop env brk hasStop runId c.id (limP ps) ⟨0, 0, 0⟩ w

/-- `ParallelOrchestrator.save_state` (lines 307-317): checkpoint save
followed by `update_run_stats(..., 'stopped', ...)` — on every call,
including periodic mid-run checkpoints. -/
def parSaveState (runId totalClients : Nat) (p : List Nat) (s : Stats) (w : W) : W :=
  updRun runId s "stopped" (saveCkpt runId totalClients p s w)

/-- Outcome of the driving `as_completed` loop: all units collected, or the
stop path taken (`save_state` already performed). -/
inductive ParLoopRes where
  | done (s : Stats) (p : List Nat) (w : W)
  | stopped (s : Stats) (p : List Nat) (w : W)
  deriving DecidableEq, Repr

/-- The driving loop (parallel_orchestrator.py lines 118-184), sequentialised
in submission order: the unit of work runs (its future completes), the stop
callback is tested before collecting the result — on signal `save_state` runs
and `"stopped"` is returned, abandoning the remaining units; otherwise the
result is merged into the shared stats and processed set (every-10-clients
`save_state`), or — if the unit raised — one error is counted and the id is
not added. -/
def parDrive (env : Env) (limP : List ProjectT → List ProjectT)
    (brk : Nat → Bool) (hasStop : Bool) (runId totalOrig : Nat)
    (cs : List ClientT) (s : Stats) (p : List Nat) (w : W) : ParLoopRes :=
  match cs with
  | [] => .done s p w
  | c :: rest =>
      let wres := parProcessClient env limP brk hasStop runId c w
      let pw := poll env hasStop wres.w
      if pw.1 then
        .stopped s p (parSaveState runId totalOrig p s pw.2)
      else
        match wres with
        | .ok cst _ =>
            let s := { s with total_phones := s.total_phones + cst.phones,
                              new_phones := s.new_phones + cst.new_phones,
                              projects_count := s.projects_count + cst.projects }
            let p := p.insert c.id
            let w := if p.length % 10 == 0 then parSaveState runId totalOrig p s pw.2
                     else pw.2
            parDrive env limP brk hasStop runId totalOrig rest s p w
        | .exc _ =>
            parDrive env limP brk hasStop runId totalOrig rest
              { s with errors := s.errors + 1 } p pw.2

/-- The result of `ParallelOrchestrator.collect` with the final internal
state. -/
structure ParOut where
  res : PyRes
  runId : Nat
  stats : Stats
  processed : List Nat
  w : W
  deriving DecidableEq, Repr

/-- The body of the parallel `collect` after initialisation
(parallel_orchestrator.py lines 97-207): client-list fetch (failure = fatal
path), truncation and filtering, the driving loop, then the completed /
stopped exits (the notifier is `None` in this embedding). -/
def parMain (env : Env) (limC : List ClientT → List ClientT)
    (limP : List ProjectT → List ProjectT) (brk : Nat → Bool) (hasStop : Bool)
    (runId : Nat) (s0 : Stats) (p0 : List Nat) (w : W) : ParOut :=
  let w := emit .fetchClients w
  match env.clientsResult with
  | .error _ => ⟨.exc, runId, s0, p0, updRun runId s0 "failed" w⟩
  | .ok allClients =>
      let totalOrig := allClients.length
      let cs := limC allClients
      let cs := if p0 != [] then cs.filter (fun c => !(p0.contains c.id)) else cs
      match parDrive env limP brk hasStop runId totalOrig cs s0 p0 w with
      | .stopped s p w => ⟨.ok (some "stopped"), runId, s, p, w⟩
      | .done s p w =>
          let w := updRun runId s "completed" w
          let w := clearCkpt w
          ⟨.ok (some "completed"), runId, s, p, w⟩

/-- `ParallelOrchestrator.collect` (lines 68-207): resume initialisation as
in the sequential orchestrator, then `parMain`. -/
def parCollect (env : Env) (limitClients limitProjects maxPages : Option Nat)
    (resume hasStop : Bool) (w : W) : ParOut :=
  let init : Nat × Stats × List Nat × W :=
    if resume then
      match w.ckpt with
      | some st => (st.run_id, st.stats, st.processed_client_ids.dedup, w)
      | none =>
          let rd := w.db.create_run
          (rd.1, zeroStats, [], { w with db := rd.2 })
    else
      let rd := w.db.create_run
      (rd.1, zeroStats, [], { w with db := rd.2 })
  parMain env (applyLimit limitClients) (applyLimit limitProjects)
    (pageBreak maxPages) hasStop init.1 init.2.1 init.2.2.1 init.2.2.2

/-! ## Trace observations -/

/-- The successive statuses written by `update_run_stats` calls in a trace. -/
def statusWrites (t : List Ev) : List String :=
  t.filterMap (fun e => match e with | .setRunStatus _ st => some st | _ => none)

/-- Outbound API fetches. -/
def isFetch : Ev → Bool
  | .fetchClients => true
  | .fetchProjects _ => true
  | .fetchPhones _ _ => true
  | _ => false

/-- Rate-limiting delays: a `time.sleep(self.rate_limit)` or a
`RateLimiter.wait()`. -/
def isDelay : Ev → Bool
  | .sleepDelay => true
  | .rlWait => true
  | _ => false

/-- Phone-page fetches. -/
def isPhoneFetch : Ev → Bool
  | .fetchPhones _ _ => true
  | _ => false

/-- Project-list or phone-page fetches. -/
def isOutFetch : Ev → Bool
  | .fetchProjects _ => true
  | .fetchPhones _ _ => true
  | _ => false

/-- Claim C4's property of a trace: every phone-page fetch is separated from
the previous outbound fetch by at least one rate-limiter wait or sleep.
`seen` records whether a delay occurred since the last fetch (initially
`true`: the first fetch has no predecessor). -/
def rlBetween (seen : Bool) : List Ev → Bool
  | [] => true
  | e :: rest =>
      if isPhoneFetch e then seen && rlBetween false rest
      else if isFetch e then rlBetween false rest
      else rlBetween (seen || isDelay e) rest

/-- Stronger property of the parallel worker's trace: every project-list and
phone-page fetch is immediately preceded by a `RateLimiter.wait()`.
`prevIsWait` records whether the previous event was a wait (initially
`false`). -/
def rlImmediate (prevIsWait : Bool) : List Ev → Bool
  | [] => true
  | e :: rest => (!(isOutFetch e) || prevIsWait) && rlImmediate (e == Ev.rlWait) rest

/-- The page numbers fetched for a given project, in trace order. -/
def pagesFetched (projectId : Nat) (t : List Ev) : List Nat :=
  t.filterMap (fun e => match e with
    | .fetchPhones pj pg => if pj == projectId then some pg else none
    | _ => none)

/-! ## Concrete environments for evaluation -/

/-- An empty store whose next rowids are 1 (fresh SQLite tables). -/
def db0 : Db := ⟨[], [], [], [], [], 1, 1⟩

/-- A fresh world: empty store, no checkpoint file, empty trace. -/
def w0 : W := ⟨db0, none, [], 0⟩

/-- Ten clients with no projects; no cancellation. -/
def envTen : Env :=
  ⟨Except.ok ((List.range 10).map (fun i => ⟨i + 1, "c"⟩)),
   fun _ => Except.ok [], fun _ => [], fun _ => false, fun _ => true⟩

/-- The client-list fetch raises. -/
def envFatal : Env :=
  ⟨Except.error (), fun _ => Except.ok [], fun _ => [], fun _ => false, fun _ => true⟩

/-- One client; the stop callback signals from the start. -/
def envStopNow : Env :=
  ⟨Except.ok [⟨1, "a"⟩], fun _ => Except.ok [], fun _ => [], fun _ => true, fun _ => true⟩

/-- One client with two projects, both with no phone pages (every page
fetch returns the empty end-of-data sentinel). -/
def envTwoProj : Env :=
  ⟨Except.ok [⟨1, "a"⟩],
   fun cid => if cid == 1 then Except.ok [⟨10, "p1"⟩, ⟨20, "p2"⟩] else Except.ok [],
   fun _ => [], fun _ => false, fun _ => true⟩

/-- C1. The run-status invariant fails in the code: in a parallel run of ten
clients with no stop request, the periodic every-10-clients checkpoint goes
through `save_state`, which also writes run status `stopped`; the run then
finishes and writes `completed` — a terminal status is recorded mid-run and
mutated again afterwards, refuting `running → terminal`-only transitions. -/
theorem parallel_periodic_save_overwrites_terminal_status :
    statusWrites (parCollect envTen none none none false false w0).w.trace
        = ["stopped", "completed"] ∧
    (parCollect envTen none none none false false w0).res = .ok (some "completed") := by
  decide

/-- C2 counterexample. On the fatal path (the client-list fetch raises), the
sequential `collect` writes run status `failed` but performs no checkpoint
write at all — the status and the checkpoint are not updated together on this
exit path, refuting the claim as stated. -/
theorem fatal_path_updates_status_without_checkpoint :
    (seqCollect envFatal none none none false false w0).res = .exc ∧
    statusWrites (seqCollect envFatal none none none false false w0).w.trace
        = ["failed"] ∧
    ((seqCollect envFatal none none none false false w0).w.trace.filter
        (fun e => e == Ev.saveState || e == Ev.clearState)) = [] ∧
    (seqCollect envFatal none none none false false w0).w.ckpt = none := by
  decide

/-- C3 counterexample. When the stop callback signals at the check before the
first client, the sequential `collect` persists the checkpoint, marks the run
`stopped` and touches no client — but its `return` carries no value (Python
`None`), not the value `"stopped"` the claim asserts. -/
theorem seq_stop_returns_none_not_stopped :
    (seqCollect envStopNow none none none false true w0).w.trace
        = [Ev.fetchClients, Ev.saveState, Ev.setRunStatus 1 "stopped"] ∧
    (seqCollect envStopNow none none none false true w0).res = .ok none ∧
    (seqCollect envStopNow none none none false true w0).res ≠ .ok (some "stopped") := by
  decide

/-- C4 counterexample. In the sequential orchestrator the delay is slept
after the project-list fetch and after each non-empty page, so when a
project's first page is empty, the next project's first phone-page fetch
follows it with no delay in between: with one client and two projects whose
pages are all empty, the trace fetches page 1 of project 20 immediately after
the empty page 1 of project 10 (only the project upsert between), and the
delay-between-fetches property fails. -/
theorem seq_phone_fetch_without_delay :
    (seqCollect envTwoProj none none none false false w0).w.trace
        = [Ev.fetchClients, Ev.upsertClient 1, Ev.fetchProjects 1, Ev.sleepDelay,
           Ev.upsertProject 10, Ev.fetchPhones 10 1,
           Ev.upsertProject 20, Ev.fetchPhones 20 1,
           Ev.setRunStatus 1 "completed", Ev.clearState] ∧
    rlBetween true (seqCollect envTwoProj none none none false false w0).w.trace
        = false := by
  decide

/-! ## C10: zero limits are falsy and disable the limit -/

lemma applyLimit_some_zero (α : Type) :
    (applyLimit (some 0) : List α → List α) = fun xs => xs := by
  funext xs; simp [applyLimit, pyTruthy]

lemma applyLimit_none (α : Type) :
    (applyLimit none : List α → List α) = fun xs => xs := by
  funext xs; simp [applyLimit, pyTruthy]

lemma pageBreak_some_zero : pageBreak (some 0) = fun _ => false := by
  funext page; simp [pageBreak, pyTruthy]

lemma pageBreak_none : pageBreak none = fun _ => false := by
  funext page; simp [pageBreak, pyTruthy]

/-- C10. Passing `0` for `limit_clients`, `limit_projects` or `max_pages`
behaves exactly like passing `None`: each limit is tested for truthiness
(`if limit:` / `if max_pages and ...`), and `0` is falsy, so the limit is
disabled entirely rather than truncating to zero items or zero pages — in
both orchestrators. -/
theorem zero_limits_disable_limits (env : Env) (lc lp mp : Option Nat)
    (resume hasStop : Bool) (w : W) :
    (seqCollect env (some 0) lp mp resume hasStop w
        = seqCollect env none lp mp resume hasStop w) ∧
    (seqCollect env lc (some 0) mp resume hasStop w
        = seqCollect env lc none mp resume hasStop w) ∧
    (seqCollect env lc lp (some 0) resume hasStop w
        = seqCollect env lc lp none resume hasStop w) ∧
    (parCollect env (some 0) lp mp resume hasStop w
        = parCollect env none lp mp resume hasStop w) ∧
    (parCollect env lc (some 0) mp resume hasStop w
        = parCollect env lc none mp resume hasStop w) ∧
    (parCollect env lc lp (some 0) resume hasStop w
        = parCollect env lc lp none resume hasStop w) := by
  refine ⟨?_, ?_, ?_, ?_, ?_, ?_⟩ <;>
    simp only [seqCollect, parCollect, applyLimit_some_zero, applyLimit_none,
      pageBreak_some_zero, pageBreak_none]

/-! ## Result projections -/

/-- The world carried by a `StepRes`. -/
def StepRes.w : StepRes → W
  | .ok _ w => w
  | .exc _ w => w
  | .kb _ w => w

/-- The stats carried by a `StepRes`. -/
def StepRes.s : StepRes → Stats
  | .ok s _ => s
  | .exc s _ => s
  | .kb s _ => s

/-- The world carried by a `LoopRes`. -/
def LoopRes.w : LoopRes → W
  | .done _ _ w => w
  | .early _ _ w => w
  | .kb _ _ w => w

/-- The stats carried by a `LoopRes`. -/
def LoopRes.stats : LoopRes → Stats
  | .done s _ _ => s
  | .early s _ _ => s
  | .kb s _ _ => s

/-- The processed-id set carried by a `LoopRes`. -/
def LoopRes.proc : LoopRes → List Nat
  | .done _ p _ => p
  | .early _ p _ => p
  | .kb _ p _ => p

/-- The world carried by a `ParLoopRes`. -/
def ParLoopRes.w : ParLoopRes → W
  | .done _ _ w => w
  | .stopped _ _ w => w

/-- The stats carried by a `ParLoopRes`. -/
def ParLoopRes.stats : ParLoopRes → Stats
  | .done s _ _ => s
  | .stopped s _ _ => s

/-- The processed-id set carried by a `ParLoopRes`. -/
def ParLoopRes.proc : ParLoopRes → List Nat
  | .done _ p _ => p
  | .stopped _ p _ => p

/-! ## Effects of one client's body

`evBody cid e` lists the events a single client's unit of work (sequential
`try` body or parallel `_process_client`) may emit: its own client upsert and
project fetch, project upserts, phone-page fetches and delays — never a
client-list fetch, a run-status write, or a checkpoint write. -/

/-- Events permissible inside the body processing client `cid`. -/
def evBody (cid : Nat) : Ev → Bool
  | .upsertClient i => i == cid
  | .fetchProjects i => i == cid
  | .upsertProject _ => true
  | .fetchPhones _ _ => true
  | .sleepDelay => true
  | .rlWait => true
  | _ => false

/-- `BodyStep w w' cid`: the step from `w` to `w'` left the `runs` table and
the checkpoint file untouched and only appended `evBody cid` events. -/
def BodyStep (w w' : W) (cid : Nat) : Prop :=
  w'.db.runs = w.db.runs ∧ w'.ckpt = w.ckpt ∧
    ∃ d, w'.trace = w.trace ++ d ∧ ∀ e ∈ d, evBody cid e = true

lemma bodyStep_rfl {w : W} {cid : Nat} : BodyStep w w cid :=
  ⟨rfl, rfl, [], by simp, by simp⟩

lemma bodyStep_trans {w w' w'' : W} {cid : Nat}
    (h1 : BodyStep w w' cid) (h2 : BodyStep w' w'' cid) : BodyStep w w'' cid := by
  obtain ⟨hr1, hc1, d1, ht1, he1⟩ := h1
  obtain ⟨hr2, hc2, d2, ht2, he2⟩ := h2
  refine ⟨hr2.trans hr1, hc2.trans hc1, d1 ++ d2, ?_, ?_⟩
  · rw [ht2, ht1, List.append_assoc]
  · intro e he
    rcases List.mem_append.mp he with h | h
    · exact he1 e h
    · exact he2 e h

lemma bodyStep_emit {w : W} {cid : Nat} {e : Ev} (h : evBody cid e = true) :
    BodyStep w (emit e w) cid :=
  ⟨rfl, rfl, [e], rfl, by simpa using h⟩

lemma bodyStep_db {w : W} {cid : Nat} {db' : Db} (h : db'.runs = w.db.runs) :
    BodyStep w { w with db := db' } cid :=
  ⟨h, rfl, [], by simp, by simp⟩

lemma bodyStep_poll {w : W} {cid : Nat} (env : Env) (hasStop : Bool) :
    BodyStep w (poll env hasStop w).2 cid := by
  unfold poll
  by_cases h : hasStop
  · simp only [if_pos h]; exact ⟨rfl, rfl, [], by simp, by simp⟩
  · simp only [if_neg h]; exact bodyStep_rfl

lemma insert_client_runs (db : Db) (cid : Nat) (u : String) :
    (db.insert_client cid u).runs = db.runs := by
  unfold Db.insert_client; split <;> rfl

lemma insert_project_runs (db : Db) (pid : Nat) (n : String) (cid : Nat) :
    (db.insert_project pid n cid).runs = db.runs := by
  unfold Db.insert_project; split <;> rfl

lemma insert_phone_runs (db : Db) (ph o : String) (rid : Nat) :
    (db.insert_phone ph o rid).2.runs = db.runs := rfl

lemma insert_project_phone_runs (db : Db) (pid phid rid : Nat) (ca : String) :
    (db.insert_project_phone pid phid rid ca).runs = db.runs := by
  unfold Db.insert_project_phone; split <;> rfl

lemma processPhone_body (cid : Nat) (valid : List Char → Bool)
    (runId projectId : Nat) (rec : PhoneRec) (s : Stats) (w : W) :
    BodyStep w (processPhone valid runId projectId rec s w).2 cid := by
  unfold processPhone
  split
  · split
    · exact bodyStep_db (by rw [insert_project_phone_runs, insert_phone_runs])
    · exact bodyStep_db (insert_project_phone_runs _ _ _ _ _)
  · exact bodyStep_rfl

lemma processPhones_body (cid : Nat) (valid : List Char → Bool)
    (runId projectId : Nat) (recs : List PhoneRec) :
    ∀ (s : Stats) (w : W),
      BodyStep w (processPhones valid runId projectId recs s w).2 cid := by
  induction recs with
  | nil => intro s w; exact bodyStep_rfl
  | cons r rest ih =>
      intro s w
      simp only [processPhones]
      exact bodyStep_trans (processPhone_body cid valid runId projectId r s w) (ih _ _)

lemma seqPageLoop_body (cid : Nat) (env : Env) (brk : Nat → Bool) (hasStop : Bool)
    (runId projectId : Nat) :
    ∀ (fuel page : Nat) (s : Stats) (w : W),
      BodyStep w (seqPageLoop env brk hasStop runId projectId fuel page s w).w cid := by
  intro fuel
  induction fuel with
  | zero => intro page s w; exact bodyStep_rfl
  | succ n ih =>
      intro page s w
      simp only [seqPageLoop]
      split
      · exact bodyStep_poll env hasStop
      · split
        · exact bodyStep_poll env hasStop
        · split
          · refine bodyStep_trans (bodyStep_poll env hasStop) (bodyStep_emit ?_)
            simp [evBody]
          · refine bodyStep_trans (bodyStep_poll env hasStop) (bodyStep_emit ?_)
            simp [evBody]
          · refine bodyStep_trans (bodyStep_trans (bodyStep_poll env hasStop)
              (bodyStep_emit ?_)) (bodyStep_trans (processPhones_body cid _ _ _ _ _ _)
              (bodyStep_trans (bodyStep_emit ?_) (ih _ _ _)))
            · simp [evBody]
            · simp [evBody]

lemma seqProjectLoop_body (cid : Nat) (env : Env) (brk : Nat → Bool)
    (hasStop : Bool) (runId clientId : Nat) :
    ∀ (ps : List ProjectT) (s : Stats) (w : W),
      BodyStep w (seqProjectLoop env brk hasStop runId clientId ps s w).w cid := by
  intro ps
  induction ps with
  | nil => intro s w; exact bodyStep_rfl
  | cons p rest ih =>
      intro s w
      simp only [seqProjectLoop]
      have hstep : BodyStep w
          (emit (Ev.upsertProject p.id)
            { w with db := w.db.insert_project p.id p.name clientId }) cid :=
        bodyStep_trans (bodyStep_db (insert_project_runs _ _ _ _))
          (bodyStep_emit (by simp [evBody]))
      have hpage := seqPageLoop_body cid env brk hasStop runId p.id
        ((env.phonePages p.id).length + 1) 1 s
        (emit (Ev.upsertProject p.id)
          { w with db := w.db.insert_project p.id p.name clientId })
      split
      · rename_i s1 w1 heq
        rw [heq] at hpage
        exact bodyStep_trans (bodyStep_trans hstep hpage) (ih _ _)
      · exact bodyStep_trans hstep hpage

lemma seqClientBody_body (env : Env) (limP : List ProjectT → List ProjectT)
    (brk : Nat → Bool) (hasStop : Bool) (runId : Nat) (c : ClientT)
    (s : Stats) (w : W) :
    BodyStep w (seqClientBody env limP brk hasStop runId c s w).w c.id := by
  unfold seqClientBody
  have hstep : BodyStep w
      (emit (Ev.fetchProjects c.id)
        (emit (Ev.upsertClient c.id)
          { w with db := w.db.insert_client c.id c.username })) c.id :=
    bodyStep_trans (bodyStep_db (insert_client_runs _ _ _))
      (bodyStep_trans (bodyStep_emit (by simp [evBody])) (bodyStep_emit (by simp [evBody])))
  split
  · exact hstep
  · exact bodyStep_trans hstep
      (bodyStep_trans (bodyStep_emit (by simp [evBody]))
        (seqProjectLoop_body c.id env brk hasStop runId c.id _ _ _))

lemma parProcessPhone_body (cid : Nat) (valid : List Char → Bool)
    (runId projectId : Nat) (rec : PhoneRec) (cst : ClientStats) (w : W) :
    BodyStep w (parProcessPhone valid runId projectId rec cst w).2 cid := by
  unfold parProcessPhone
  split
  · split
    · exact bodyStep_db (by rw [insert_project_phone_runs, insert_phone_runs])
    · exact bodyStep_db (insert_project_phone_runs _ _ _ _ _)
  · exact bodyStep_rfl

lemma parProcessPhones_body (cid : Nat) (valid : List Char → Bool)
    (runId projectId : Nat) (recs : List PhoneRec) :
    ∀ (cst : ClientStats) (w : W),
      BodyStep w (parProcessPhones valid runId projectId recs cst w).2 cid := by
  induction recs with
  | nil => intro cst w; exact bodyStep_rfl
  | cons r rest ih =>
      intro cst w
      simp only [parProcessPhones]
      exact bodyStep_trans (parProcessPhone_body cid valid runId projectId r cst w) (ih _ _)

lemma parPageLoop_body (cid : Nat) (env : Env) (brk : Nat → Bool) (hasStop : Bool)
    (runId projectId : Nat) :
    ∀ (fuel page : Nat) (cst : ClientStats) (w : W),
      BodyStep w (parPageLoop env brk hasStop runId projectId fuel page cst w).w cid := by
  intro fuel
  induction fuel with
  | zero => intro page cst w; exact bodyStep_rfl
  | succ n ih =>
      intro page cst w
      simp only [parPageLoop]
      split
      · exact bodyStep_poll env hasStop
      · split
        · exact bodyStep_poll env hasStop
        · split
          · refine bodyStep_trans (bodyStep_trans (bodyStep_poll env hasStop)
              (bodyStep_emit ?_)) (bodyStep_emit ?_)
            · simp [evBody]
            · simp [evBody]
          · refine bodyStep_trans (bodyStep_trans (bodyStep_poll env hasStop)
              (bodyStep_emit ?_)) (bodyStep_emit ?_)
            · simp [evBody]
            · simp [evBody]
          · refine bodyStep_trans (bodyStep_trans (bodyStep_trans (bodyStep_poll env hasStop)
              (bodyStep_emit ?_)) (bodyStep_emit ?_))
              (bodyStep_trans (parProcessPhones_body cid _ _ _ _ _ _) (ih _ _ _))
            · simp [evBody]
            · simp [evBody]

lemma parProjectLoop_body (cid : Nat) (env : Env) (brk : Nat → Bool)
    (hasStop : Bool) (runId clientId : Nat) :
    ∀ (ps : List ProjectT) (cst : ClientStats) (w : W),
      BodyStep w (parProjectLoop env brk hasStop runId clientId ps cst w).w cid := by
  intro ps
  induction ps with
  | nil => intro cst w; exact bodyStep_rfl
  | cons p rest ih =>
      intro cst w
      simp only [parProjectLoop]
      split
      · exact bodyStep_poll env hasStop
      · set w2 := emit Ev.rlWait (poll env hasStop w).2 with hw2
        set w3 : W := { w2 with db := w2.db.insert_project p.id p.name clientId } with hw3
        set w4 := emit (Ev.upsertProject p.id) w3 with hw4
        set cst2 : ClientStats := { cst with projects := cst.projects + 1 } with hcst2
        have hpre : BodyStep w w4 cid :=
          bodyStep_trans (bodyStep_poll env hasStop)
            (bodyStep_trans (bodyStep_emit (by simp [evBody]))
              (bodyStep_trans (bodyStep_db (insert_project_runs _ _ _ _))
                (bodyStep_emit (by simp [evBody]))))
        have hpage := parPageLoop_body cid env brk hasStop runId p.id
          ((env.phonePages p.id).length + 1) 1 cst2 w4
        rcases hR : parPageLoop env brk hasStop runId p.id
            ((env.phonePages p.id).length + 1) 1 cst2 w4 with ⟨cst1, w1⟩ | ⟨w1⟩ <;>
          rw [hR] at hpage
        · exact bodyStep_trans (bodyStep_trans hpre hpage) (ih _ _)
        · exact bodyStep_trans hpre hpage

lemma parProcessClient_body (env : Env) (limP : List ProjectT → List ProjectT)
    (brk : Nat → Bool) (hasStop : Bool) (runId : Nat) (c : ClientT) (w : W) :
    BodyStep w (parProcessClient env limP brk hasStop runId c w).w c.id := by
  unfold parProcessClient
  have hpre : BodyStep w
      (emit (Ev.fetchProjects c.id)
        (emit Ev.rlWait
          (emit (Ev.upsertClient c.id)
            { emit Ev.rlWait w with
              db := (emit Ev.rlWait w).db.insert_client c.id c.username }))) c.id :=
    bodyStep_trans (bodyStep_emit (by simp [evBody]))
      (bodyStep_trans (bodyStep_db (insert_client_runs _ _ _))
        (bodyStep_trans (bodyStep_emit (by simp [evBody]))
          (bodyStep_trans (bodyStep_emit (by simp [evBody]))
            (bodyStep_emit (by simp [evBody])))))
  split
  · exact hpre
  · exact bodyStep_trans hpre
      (parProjectLoop_body c.id env brk hasStop runId c.id _ _ _)


/-! ## Client-loop level lemmas -/

/-- Events that constitute "processing" a given client: its upsert or its
project-list fetch. -/
def touches (id : Nat) : Ev → Bool
  | .upsertClient i => i == id
  | .fetchProjects i => i == id
  | _ => false

lemma touches_of_evBody {cid id : Nat} {e : Ev} (h : evBody cid e = true)
    (hne : cid ≠ id) : touches id e = false := by
  cases e with
  | upsertClient i =>
      simp only [evBody, beq_iff_eq] at h
      subst h
      exact beq_eq_false_iff_ne.mpr hne
  | fetchProjects i =>
      simp only [evBody, beq_iff_eq] at h
      subst h
      exact beq_eq_false_iff_ne.mpr hne
  | fetchClients => rfl
  | fetchPhones a b => rfl
  | sleepDelay => rfl
  | rlWait => rfl
  | upsertProject a => rfl
  | setRunStatus a b => rfl
  | saveState => rfl
  | clearState => rfl

lemma filter_touches_of_bodyStep {w w' : W} {cid id : Nat}
    (h : BodyStep w w' cid) (hne : cid ≠ id) :
    w'.trace.filter (touches id) = w.trace.filter (touches id) := by
  obtain ⟨_, _, d, htr, hall⟩ := h
  rw [htr, List.filter_append]
  have hd : d.filter (touches id) = [] :=
    List.filter_eq_nil_iff.mpr
      (fun e he => by simp [touches_of_evBody (hall e he) hne])
  simp [hd]

lemma saveCkpt_trace (runId totalOrig : Nat) (p : List Nat) (s : Stats) (w : W) :
    (saveCkpt runId totalOrig p s w).trace = w.trace ++ [Ev.saveState] := rfl

lemma updRun_trace (runId : Nat) (s : Stats) (st : String) (w : W) :
    (updRun runId s st w).trace = w.trace ++ [Ev.setRunStatus runId st] := rfl

lemma poll_bodyStep {cid : Nat} (env : Env) (hasStop : Bool) (w : W) :
    BodyStep w (poll env hasStop w).2 cid := bodyStep_poll env hasStop

/-- Clients absent from `cs` are never touched by the client loop: the trace
gains no `upsertClient id` or `fetchProjects id` event for any `id` distinct
from every id in `cs`. -/
lemma seqClientLoop_no_touch (env : Env) (limP : List ProjectT → List ProjectT)
    (brk : Nat → Bool) (hasStop : Bool) (runId totalOrig id : Nat) :
    ∀ (cs : List ClientT) (idx : Nat) (s : Stats) (p : List Nat) (w : W),
      (∀ c ∈ cs, c.id ≠ id) →
      ((seqClientLoop env limP brk hasStop runId totalOrig cs idx s p w).w.trace.filter
        (touches id)) = w.trace.filter (touches id) := by
  intro cs
  induction cs with
  | nil => intro idx s p w hcs; rfl
  | cons c rest ih =>
      intro idx s p w hcs
      have hchead : c.id ≠ id := hcs c (List.mem_cons_self c rest)
      have hcrest : ∀ x ∈ rest, x.id ≠ id :=
        fun x hx => hcs x (List.mem_cons_of_mem c hx)
      simp only [seqClientLoop]
      split
      · simp only [LoopRes.w, updRun_trace, saveCkpt_trace, List.filter_append]
        have h1 : [Ev.saveState].filter (touches id) = [] := rfl
        have h2 : [Ev.setRunStatus runId "stopped"].filter (touches id) = [] := rfl
        rw [h1, h2, List.append_nil, List.append_nil]
        exact filter_touches_of_bodyStep (poll_bodyStep env hasStop w) hchead
      · have hbody := seqClientBody_body env limP brk hasStop runId c s
          (poll env hasStop w).2
        have hbf : ∀ r, seqClientBody env limP brk hasStop runId c s
              (poll env hasStop w).2 = r →
            r.w.trace.filter (touches id) = w.trace.filter (touches id) := by
          intro r hr
          rw [hr] at hbody
          exact (filter_touches_of_bodyStep hbody hchead).trans
            (filter_touches_of_bodyStep (poll_bodyStep env hasStop w) hchead)
        split
        · rename_i s1 w1 heq
          exact hbf (StepRes.kb s1 w1) heq
        · rename_i s1 w1 heq
          rw [ih _ _ _ _ hcrest]
          exact hbf (StepRes.exc s1 w1) heq
        · rename_i s1 w1 heq
          rw [ih _ _ _ _ hcrest]
          by_cases hidx : (idx % 5 == 0) = true
          · simp only [hidx, if_true, saveCkpt_trace, List.filter_append]
            have h1 : [Ev.saveState].filter (touches id) = [] := rfl
            rw [h1, List.append_nil]
            exact hbf (StepRes.ok s1 w1) heq
          · simp only [Bool.not_eq_true] at hidx
            simp only [hidx, Bool.false_eq_true, if_false]
            exact hbf (StepRes.ok s1 w1) heq

/-! ## Run-status observations -/

/-- The status of the run row with the given id. -/
def runStatusOf (rs : List RunRow) (rid : Nat) : Option String :=
  (rs.find? (fun r => r.id == rid)).map (fun r => r.status)

/-- The recorded error count of the run row with the given id. -/
def runErrorsOf (rs : List RunRow) (rid : Nat) : Option Nat :=
  (rs.find? (fun r => r.id == rid)).map (fun r => r.errors_count)

/-- The effect of `update_run_stats` on the run rows. -/
def setRows (runId total new : Nat) (st : String) (errs : Nat)
    (rs : List RunRow) : List RunRow :=
  rs.map (fun r => if r.id == runId then
    { r with total_phones := total, new_phones := new,
             errors_count := errs, status := st }
  else r)

lemma update_run_stats_runs (db : Db) (runId t n : Nat) (st : String) (e : Nat) :
    (db.update_run_stats runId t n st e).runs = setRows runId t n st e db.runs := rfl

/-- Some run row with the given id is present. -/
def hasRunId (rs : List RunRow) (rid : Nat) : Prop := ∃ r ∈ rs, r.id = rid

lemma runStatusOf_setRows (rid t n : Nat) (st : String) (e : Nat) :
    ∀ (rs : List RunRow), hasRunId rs rid →
      runStatusOf (setRows rid t n st e rs) rid = some st ∧
      runErrorsOf (setRows rid t n st e rs) rid = some e := by
  intro rs
  induction rs with
  | nil => rintro ⟨r, hr, _⟩; cases hr
  | cons a rest ih =>
      intro hex
      by_cases ha : a.id = rid
      · have hbeq : (a.id == rid) = true := beq_iff_eq.mpr ha
        simp [setRows, runStatusOf, runErrorsOf, List.find?, hbeq]
      · have hbeq : (a.id == rid) = false := beq_eq_false_iff_ne.mpr ha
        have hex2 : hasRunId rest rid := by
          rcases hex with ⟨r, hr, hid⟩
          rcases List.mem_cons.mp hr with rfl | hr2
          · exact absurd hid ha
          · exact ⟨r, hr2, hid⟩
        have := ih hex2
        simpa [setRows, runStatusOf, runErrorsOf, List.find?, hbeq] using this

lemma setRows_id (rid2 t n : Nat) (st : String) (e : Nat) (r : RunRow) :
    (if r.id == rid2 then
      ({ r with total_phones := t, new_phones := n,
                errors_count := e, status := st } : RunRow)
    else r).id = r.id := by
  split <;> rfl

lemma setRows_hasRunId {rs : List RunRow} {rid : Nat} (rid2 t n : Nat)
    (st : String) (e : Nat) (h : hasRunId rs rid) :
    hasRunId (setRows rid2 t n st e rs) rid := by
  rcases h with ⟨r, hr, hid⟩
  exact ⟨_, List.mem_map_of_mem _ hr, (setRows_id rid2 t n st e r).trans hid⟩

lemma poll_db (env : Env) (hasStop : Bool) (w : W) :
    (poll env hasStop w).2.db = w.db := by
  unfold poll; split <;> rfl

lemma poll_ckpt (env : Env) (hasStop : Bool) (w : W) :
    (poll env hasStop w).2.ckpt = w.ckpt := by
  unfold poll; split <;> rfl

lemma saveCkpt_db (runId totalOrig : Nat) (p : List Nat) (s : Stats) (w : W) :
    (saveCkpt runId totalOrig p s w).db = w.db := rfl

lemma saveCkpt_ckpt (runId totalOrig : Nat) (p : List Nat) (s : Stats) (w : W) :
    (saveCkpt runId totalOrig p s w).ckpt = some ⟨runId, totalOrig, p.length, p, s⟩ := rfl

lemma updRun_runs (runId : Nat) (s : Stats) (st : String) (w : W) :
    (updRun runId s st w).db.runs
      = setRows runId s.total_phones s.new_phones st s.errors w.db.runs := rfl

lemma updRun_ckpt (runId : Nat) (s : Stats) (st : String) (w : W) :
    (updRun runId s st w).ckpt = w.ckpt := rfl

/-- Classification of the client loop's effect on the `runs` table and the
checkpoint: it leaves the runs untouched unless it takes the early-stop path,
which records `stopped` with the stats at stop and persists the matching
checkpoint. -/
lemma seqClientLoop_runs (env : Env) (limP : List ProjectT → List ProjectT)
    (brk : Nat → Bool) (hasStop : Bool) (runId totalOrig : Nat) :
    ∀ (cs : List ClientT) (idx : Nat) (s : Stats) (p : List Nat) (w : W),
      (∀ s' p' w', seqClientLoop env limP brk hasStop runId totalOrig cs idx s p w
          = .done s' p' w' → w'.db.runs = w.db.runs) ∧
      (∀ s' p' w', seqClientLoop env limP brk hasStop runId totalOrig cs idx s p w
          = .kb s' p' w' → w'.db.runs = w.db.runs) ∧
      (∀ s' p' w', seqClientLoop env limP brk hasStop runId totalOrig cs idx s p w
          = .early s' p' w' →
          w'.db.runs = setRows runId s'.total_phones s'.new_phones "stopped"
            s'.errors w.db.runs ∧
          w'.ckpt = some ⟨runId, totalOrig, p'.length, p', s'⟩ ∧
          Ev.saveState ∈ w'.trace) := by
  intro cs
  induction cs with
  | nil =>
      intro idx s p w
      refine ⟨?_, ?_, ?_⟩ <;> intro s' p' w' h <;>
        simp only [seqClientLoop] at h <;> cases h
      rfl
  | cons c rest ih =>
      intro idx s p w
      have hbody := seqClientBody_body env limP brk hasStop runId c s
        (poll env hasStop w).2
      have hpollr : (poll env hasStop w).2.db.runs = w.db.runs :=
        congrArg Db.runs (poll_db env hasStop w)
      refine ⟨?_, ?_, ?_⟩ <;> intro s' p' w' h <;>
        simp only [seqClientLoop] at h <;> split at h
      -- conjunct 1: target .done
      · cases h
      · split at h
        · cases h
        · rename_i s1 w1 heq
          rw [heq] at hbody
          refine ((ih _ _ _ _).1 s' p' w' h).trans (hbody.1.trans hpollr)
        · rename_i s1 w1 heq
          rw [heq] at hbody
          have hsv : (if (idx % 5 == 0) = true then
              saveCkpt runId totalOrig (p.insert c.id) s1 w1 else w1).db = w1.db := by
            split <;> rfl
          refine ((ih _ _ _ _).1 s' p' w' h).trans ?_
          rw [hsv]
          exact hbody.1.trans hpollr
      -- conjunct 2: target .kb
      · cases h
      · split at h
        · rename_i s1 w1 heq
          rw [heq] at hbody
          cases h
          exact hbody.1.trans hpollr
        · rename_i s1 w1 heq
          rw [heq] at hbody
          refine ((ih _ _ _ _).2.1 s' p' w' h).trans (hbody.1.trans hpollr)
        · rename_i s1 w1 heq
          rw [heq] at hbody
          have hsv : (if (idx % 5 == 0) = true then
              saveCkpt runId totalOrig (p.insert c.id) s1 w1 else w1).db = w1.db := by
            split <;> rfl
          refine ((ih _ _ _ _).2.1 s' p' w' h).trans ?_
          rw [hsv]
          exact hbody.1.trans hpollr
      -- conjunct 3: target .early
      · cases h
        refine ⟨?_, ?_, ?_⟩
        · rw [updRun_runs]
          exact congrArg (setRows runId s.total_phones s.new_phones "stopped" s.errors)
            ((congrArg Db.runs (saveCkpt_db _ _ _ _ _)).trans hpollr)
        · rw [updRun_ckpt, saveCkpt_ckpt]
        · simp [updRun_trace, saveCkpt_trace]
      · split at h
        · cases h
        · rename_i s1 w1 heq
          rw [heq] at hbody
          simp only [StepRes.w] at hbody
          have hrw : w1.db.runs = w.db.runs := hbody.1.trans hpollr
          have := (ih _ _ _ _).2.2 s' p' w' h
          rw [hrw] at this
          exact this
        · rename_i s1 w1 heq
          rw [heq] at hbody
          simp only [StepRes.w] at hbody
          have hsv : (if (idx % 5 == 0) = true then
              saveCkpt runId totalOrig (p.insert c.id) s1 w1 else w1).db = w1.db := by
            split <;> rfl
          have := (ih _ _ _ _).2.2 s' p' w' h
          rw [hsv, hbody.1.trans hpollr] at this
          exact this

/-! ## Driving-loop level lemmas (parallel) -/

lemma parSaveState_trace (runId totalOrig : Nat) (p : List Nat) (s : Stats) (w : W) :
    (parSaveState runId totalOrig p s w).trace
      = (w.trace ++ [Ev.saveState]) ++ [Ev.setRunStatus runId "stopped"] := rfl

lemma parSaveState_runs (runId totalOrig : Nat) (p : List Nat) (s : Stats) (w : W) :
    (parSaveState runId totalOrig p s w).db.runs
      = setRows runId s.total_phones s.new_phones "stopped" s.errors w.db.runs := rfl

lemma parSaveState_ckpt (runId totalOrig : Nat) (p : List Nat) (s : Stats) (w : W) :
    (parSaveState runId totalOrig p s w).ckpt
      = some ⟨runId, totalOrig, p.length, p, s⟩ := rfl

/-- Clients absent from `cs` are never touched by the parallel driving loop. -/
lemma parDrive_no_touch (env : Env) (limP : List ProjectT → List ProjectT)
    (brk : Nat → Bool) (hasStop : Bool) (runId totalOrig id : Nat) :
    ∀ (cs : List ClientT) (s : Stats) (p : List Nat) (w : W),
      (∀ c ∈ cs, c.id ≠ id) →
      ((parDrive env limP brk hasStop runId totalOrig cs s p w).w.trace.filter
        (touches id)) = w.trace.filter (touches id) := by
  intro cs
  induction cs with
  | nil => intro s p w hcs; rfl
  | cons c rest ih =>
      intro s p w hcs
      have hchead : c.id ≠ id := hcs c (List.mem_cons_self c rest)
      have hcrest : ∀ x ∈ rest, x.id ≠ id :=
        fun x hx => hcs x (List.mem_cons_of_mem c hx)
      simp only [parDrive]
      split
      · -- stop path
        have hb := parProcessClient_body env limP brk hasStop runId c w
        have hchain : ((poll env hasStop
              (parProcessClient env limP brk hasStop runId c w).w).2.trace.filter
              (touches id)) = w.trace.filter (touches id) :=
          (filter_touches_of_bodyStep (poll_bodyStep env hasStop _) hchead).trans
            (filter_touches_of_bodyStep hb hchead)
        simp only [ParLoopRes.w, parSaveState_trace, List.filter_append]
        have h1 : [Ev.saveState].filter (touches id) = [] := rfl
        have h2 : [Ev.setRunStatus runId "stopped"].filter (touches id) = [] := rfl
        rw [h1, h2, List.append_nil, List.append_nil]
        exact hchain
      · have hb := parProcessClient_body env limP brk hasStop runId c w
        have hchain : ((poll env hasStop
              (parProcessClient env limP brk hasStop runId c w).w).2.trace.filter
              (touches id)) = w.trace.filter (touches id) :=
          (filter_touches_of_bodyStep (poll_bodyStep env hasStop _) hchead).trans
            (filter_touches_of_bodyStep hb hchead)
        split
        · rename_i cst1 w1 heq
          rw [ih _ _ _ hcrest]
          by_cases hlen : ((p.insert c.id).length % 10 == 0) = true
          · simp only [hlen, if_true, parSaveState_trace, List.filter_append]
            have h1 : [Ev.saveState].filter (touches id) = [] := rfl
            have h2 : [Ev.setRunStatus runId "stopped"].filter (touches id) = [] := rfl
            rw [h1, h2, List.append_nil, List.append_nil]
            exact hchain
          · simp only [Bool.not_eq_true] at hlen
            simp only [hlen, Bool.false_eq_true, if_false]
            exact hchain
        · rename_i w1 heq
          rw [ih _ _ _ hcrest]
          exact hchain

/-- Classification of the parallel driving loop: the run row stays present
throughout (periodic `save_state` calls rewrite it), and the stop path leaves
run status `stopped` with the stats at stop and the matching checkpoint. -/
lemma parDrive_shape (env : Env) (limP : List ProjectT → List ProjectT)
    (brk : Nat → Bool) (hasStop : Bool) (runId totalOrig : Nat) :
    ∀ (cs : List ClientT) (s : Stats) (p : List Nat) (w : W),
      hasRunId w.db.runs runId →
      (∀ s' p' w', parDrive env limP brk hasStop runId totalOrig cs s p w
          = .done s' p' w' → hasRunId w'.db.runs runId) ∧
      (∀ s' p' w', parDrive env limP brk hasStop runId totalOrig cs s p w
          = .stopped s' p' w' →
          runStatusOf w'.db.runs runId = some "stopped" ∧
          runErrorsOf w'.db.runs runId = some s'.errors ∧
          w'.ckpt = some ⟨runId, totalOrig, p'.length, p', s'⟩ ∧
          Ev.saveState ∈ w'.trace) := by
  intro cs
  induction cs with
  | nil =>
      intro s p w hrun
      refine ⟨?_, ?_⟩ <;> intro s' p' w' h <;>
        simp only [parDrive] at h <;> cases h
      exact hrun
  | cons c rest ih =>
      intro s p w hrun
      have hb := parProcessClient_body env limP brk hasStop runId c w
      have hrunp : hasRunId (poll env hasStop
          (parProcessClient env limP brk hasStop runId c w).w).2.db.runs runId := by
        rw [congrArg Db.runs (poll_db env hasStop _), hb.1]
        exact hrun
      refine ⟨?_, ?_⟩ <;> intro s' p' w' h <;>
        simp only [parDrive] at h <;> split at h
      -- conjunct done, stop path: impossible
      · cases h
      · split at h
        · rename_i cst1 w1 heq
          refine (ih _ _ _ ?_).1 s' p' w' h
          by_cases hlen : (((p.insert c.id).length % 10 == 0)) = true
          · simp only [hlen, if_true, parSaveState_runs]
            exact setRows_hasRunId _ _ _ _ _ hrunp
          · simp only [Bool.not_eq_true] at hlen
            simp only [hlen, Bool.false_eq_true, if_false]
            exact hrunp
        · rename_i w1 heq
          exact (ih _ _ _ hrunp).1 s' p' w' h
      -- conjunct stopped, stop path
      · cases h
        have hset := runStatusOf_setRows runId s.total_phones s.new_phones "stopped"
          s.errors _ hrunp
        refine ⟨?_, ?_, ?_, ?_⟩
        · rw [parSaveState_runs]; exact hset.1
        · rw [parSaveState_runs]; exact hset.2
        · rw [parSaveState_ckpt]
        · simp [parSaveState_trace]
      · split at h
        · rename_i cst1 w1 heq
          refine (ih _ _ _ ?_).2 s' p' w' h
          by_cases hlen : (((p.insert c.id).length % 10 == 0)) = true
          · simp only [hlen, if_true, parSaveState_runs]
            exact setRows_hasRunId _ _ _ _ _ hrunp
          · simp only [Bool.not_eq_true] at hlen
            simp only [hlen, Bool.false_eq_true, if_false]
            exact hrunp
        · rename_i w1 heq
          exact (ih _ _ _ hrunp).2 s' p' w' h

/-! ## C8: resume adoption and no reprocessing -/

lemma filter_touches_emit_fetchClients (w : W) (id : Nat) :
    (emit Ev.fetchClients w).trace.filter (touches id) = w.trace.filter (touches id) := by
  simp [emit, List.filter_append, touches]

lemma seqMain_no_touch (env : Env) (limC : List ClientT → List ClientT)
    (limP : List ProjectT → List ProjectT) (brk : Nat → Bool) (hasStop : Bool)
    (runId : Nat) (s0 : Stats) (p0 : List Nat) (w : W) (id : Nat) (hid : id ∈ p0) :
    ((seqMain env limC limP brk hasStop runId s0 p0 w).w.trace.filter (touches id))
      = w.trace.filter (touches id) := by
  have hne : (p0 != []) = true := bne_iff_ne.mpr (List.ne_nil_of_mem hid)
  simp only [seqMain]
  split
  · -- fatal branch
    simp [updRun_trace, emit, List.filter_append, touches]
  · rename_i allClients heq
    rw [if_pos hne]
    have hcs : ∀ c ∈ (limC allClients).filter (fun c => !(p0.contains c.id)),
        c.id ≠ id := by
      intro c hc hEq
      have hmem := (List.mem_filter.mp hc).2
      simp only [Bool.not_eq_true'] at hmem
      have hcont : p0.contains id = true := List.elem_eq_true_of_mem hid
      rw [hEq, hcont] at hmem
      cases hmem
    have hloop := seqClientLoop_no_touch env limP brk hasStop runId
      allClients.length id ((limC allClients).filter (fun c => !(p0.contains c.id)))
      1 s0 p0 (emit Ev.fetchClients w) hcs
    split
    · rename_i s1 p1 w1 heq2
      rw [heq2] at hloop
      simp only [LoopRes.w] at hloop
      show ((clearCkpt (updRun runId s1 "completed" w1)).trace.filter (touches id)) = _
      simp only [clearCkpt, updRun_trace]
      rw [List.filter_append, List.filter_append]
      have h1 : [Ev.setRunStatus runId "completed"].filter (touches id) = [] := rfl
      have h2 : [Ev.clearState].filter (touches id) = [] := rfl
      rw [h1, h2, List.append_nil, List.append_nil]
      exact hloop.trans (filter_touches_emit_fetchClients w id)
    · rename_i s1 p1 w1 heq2
      rw [heq2] at hloop
      simp only [LoopRes.w] at hloop
      exact hloop.trans (filter_touches_emit_fetchClients w id)
    · rename_i s1 p1 w1 heq2
      rw [heq2] at hloop
      simp only [LoopRes.w] at hloop
      show ((updRun runId s1 "stopped" (saveCkpt runId allClients.length p1 s1 w1)).trace.filter
        (touches id)) = _
      simp only [updRun_trace, saveCkpt_trace]
      rw [List.filter_append, List.filter_append]
      have h1 : [Ev.saveState].filter (touches id) = [] := rfl
      have h2 : [Ev.setRunStatus runId "stopped"].filter (touches id) = [] := rfl
      rw [h1, h2, List.append_nil, List.append_nil]
      exact hloop.trans (filter_touches_emit_fetchClients w id)

lemma parMain_no_touch (env : Env) (limC : List ClientT → List ClientT)
    (limP : List ProjectT → List ProjectT) (brk : Nat → Bool) (hasStop : Bool)
    (runId : Nat) (s0 : Stats) (p0 : List Nat) (w : W) (id : Nat) (hid : id ∈ p0) :
    ((parMain env limC limP brk hasStop runId s0 p0 w).w.trace.filter (touches id))
      = w.trace.filter (touches id) := by
  have hne : (p0 != []) = true := bne_iff_ne.mpr (List.ne_nil_of_mem hid)
  simp only [parMain]
  split
  · simp [updRun_trace, emit, List.filter_append, touches]
  · rename_i allClients heq
    rw [if_pos hne]
    have hcs : ∀ c ∈ (limC allClients).filter (fun c => !(p0.contains c.id)),
        c.id ≠ id := by
      intro c hc hEq
      have hmem := (List.mem_filter.mp hc).2
      simp only [Bool.not_eq_true'] at hmem
      have hcont : p0.contains id = true := List.elem_eq_true_of_mem hid
      rw [hEq, hcont] at hmem
      cases hmem
    have hloop := parDrive_no_touch env limP brk hasStop runId
      allClients.length id ((limC allClients).filter (fun c => !(p0.contains c.id)))
      s0 p0 (emit Ev.fetchClients w) hcs
    split
    · rename_i s1 p1 w1 heq2
      rw [heq2] at hloop
      simp only [ParLoopRes.w] at hloop
      exact hloop.trans (filter_touches_emit_fetchClients w id)
    · rename_i s1 p1 w1 heq2
      rw [heq2] at hloop
      simp only [ParLoopRes.w] at hloop
      show ((clearCkpt (updRun runId s1 "completed" w1)).trace.filter (touches id)) = _
      simp only [clearCkpt, updRun_trace]
      rw [List.filter_append, List.filter_append]
      have h1 : [Ev.setRunStatus runId "completed"].filter (touches id) = [] := rfl
      have h2 : [Ev.clearState].filter (touches id) = [] := rfl
      rw [h1, h2, List.append_nil, List.append_nil]
      exact hloop.trans (filter_touches_emit_fetchClients w id)

/-- C8. With resume requested and a checkpoint present, both orchestrators
adopt the checkpoint's `run_id`, `stats` and `processed_client_ids` (their
`collect` equals the main body started from exactly those values), and no
client id recorded in the checkpoint is ever processed (no client upsert and
no project fetch for it is added to the trace); with no checkpoint present,
resume falls back to exactly the fresh-start behaviour. -/
theorem resume_adoption_and_no_reprocessing (env : Env)
    (lc lp mp : Option Nat) (hasStop : Bool) (w : W) :
    (∀ st, w.ckpt = some st →
      seqCollect env lc lp mp true hasStop w
        = seqMain env (applyLimit lc) (applyLimit lp) (pageBreak mp) hasStop
            st.run_id st.stats st.processed_client_ids.dedup w ∧
      parCollect env lc lp mp true hasStop w
        = parMain env (applyLimit lc) (applyLimit lp) (pageBreak mp) hasStop
            st.run_id st.stats st.processed_client_ids.dedup w ∧
      (∀ id ∈ st.processed_client_ids,
        ((seqCollect env lc lp mp true hasStop w).w.trace.filter (touches id))
          = w.trace.filter (touches id) ∧
        ((parCollect env lc lp mp true hasStop w).w.trace.filter (touches id))
          = w.trace.filter (touches id))) ∧
    (w.ckpt = none →
      seqCollect env lc lp mp true hasStop w
        = seqCollect env lc lp mp false hasStop w ∧
      parCollect env lc lp mp true hasStop w
        = parCollect env lc lp mp false hasStop w) := by
  constructor
  · intro st hck
    have hseq : seqCollect env lc lp mp true hasStop w
        = seqMain env (applyLimit lc) (applyLimit lp) (pageBreak mp) hasStop
            st.run_id st.stats st.processed_client_ids.dedup w := by
      simp [seqCollect, hck]
    have hpar : parCollect env lc lp mp true hasStop w
        = parMain env (applyLimit lc) (applyLimit lp) (pageBreak mp) hasStop
            st.run_id st.stats st.processed_client_ids.dedup w := by
      simp [parCollect, hck]
    refine ⟨hseq, hpar, fun id hid => ?_⟩
    have hid2 : id ∈ st.processed_client_ids.dedup := List.mem_dedup.mpr hid
    constructor
    · rw [hseq]
      exact seqMain_no_touch env _ _ _ hasStop st.run_id st.stats _ w id hid2
    · rw [hpar]
      exact parMain_no_touch env _ _ _ hasStop st.run_id st.stats _ w id hid2
  · intro hck
    constructor
    · simp [seqCollect, hck]
    · simp [parCollect, hck]

/-- A checkpoint recording run 7 with client 1 already processed. -/
def stW : Checkpoint := ⟨7, 2, 1, [1], zeroStats⟩

/-- A world whose persisted checkpoint is `stW`. -/
def wCk : W := ⟨db0, some stW, [], 0⟩

/-- Two clients with no projects; no cancellation. -/
def envTwoCl : Env :=
  ⟨Except.ok [⟨1, "a"⟩, ⟨2, "b"⟩], fun _ => Except.ok [], fun _ => [],
   fun _ => false, fun _ => true⟩

/-- Witness for C8: resuming from `stW` adopts run 7 and never touches
client 1; resuming with no checkpoint equals a fresh start. -/
theorem resume_adoption_and_no_reprocessing_witness :
    (seqCollect envTwoCl none none none true false wCk
      = seqMain envTwoCl (applyLimit none) (applyLimit none) (pageBreak none) false
          stW.run_id stW.stats stW.processed_client_ids.dedup wCk) ∧
    ((seqCollect envTwoCl none none none true false wCk).w.trace.filter (touches 1)
      = wCk.trace.filter (touches 1)) ∧
    ((parCollect envTwoCl none none none true false wCk).w.trace.filter (touches 1)
      = wCk.trace.filter (touches 1)) ∧
    (seqCollect envTwoCl none none none true false w0
      = seqCollect envTwoCl none none none false false w0) :=
  ⟨((resume_adoption_and_no_reprocessing envTwoCl none none none false wCk).1 stW rfl).1,
   (((resume_adoption_and_no_reprocessing envTwoCl none none none false wCk).1 stW
      rfl).2.2 1 (by decide)).1,
   (((resume_adoption_and_no_reprocessing envTwoCl none none none false wCk).1 stW
      rfl).2.2 1 (by decide)).2,
   ((resume_adoption_and_no_reprocessing envTwoCl none none none false w0).2 rfl).1⟩

/-! ## C2 amended: exit paths -/

lemma emit_db (e : Ev) (w : W) : (emit e w).db = w.db := rfl

lemma clearCkpt_db (w : W) : (clearCkpt w).db = w.db := rfl

/-- Amended C2, sequential part over the main body: on every exit the run row
carries a terminal status with the accumulated error count; every non-fatal
exit (completion, stop, interrupt) also writes or clears the checkpoint; the
fatal exit leaves the checkpoint file exactly as it was. -/
lemma seqMain_exit_paths (env : Env) (limC : List ClientT → List ClientT)
    (limP : List ProjectT → List ProjectT) (brk : Nat → Bool) (hasStop : Bool)
    (runId : Nat) (s0 : Stats) (p0 : List Nat) (w : W)
    (hrun : hasRunId w.db.runs runId) :
    (∃ st, runStatusOf (seqMain env limC limP brk hasStop runId s0 p0 w).w.db.runs
        runId = some st ∧ (st = "completed" ∨ st = "stopped" ∨ st = "failed")) ∧
    runErrorsOf (seqMain env limC limP brk hasStop runId s0 p0 w).w.db.runs runId
      = some (seqMain env limC limP brk hasStop runId s0 p0 w).stats.errors ∧
    ((seqMain env limC limP brk hasStop runId s0 p0 w).res = .exc →
      (seqMain env limC limP brk hasStop runId s0 p0 w).w.ckpt = w.ckpt) ∧
    ((seqMain env limC limP brk hasStop runId s0 p0 w).res ≠ .exc →
      Ev.saveState ∈ (seqMain env limC limP brk hasStop runId s0 p0 w).w.trace ∨
      Ev.clearState ∈ (seqMain env limC limP brk hasStop runId s0 p0 w).w.trace) := by
  have hrun1 : hasRunId (emit Ev.fetchClients w).db.runs runId := hrun
  simp only [seqMain]
  split
  · -- fatal path
    have hset := runStatusOf_setRows runId s0.total_phones s0.new_phones "failed"
      s0.errors _ hrun1
    exact ⟨⟨"failed", hset.1, Or.inr (Or.inr rfl)⟩, hset.2,
      fun _ => rfl, fun hne => absurd rfl hne⟩
  · rename_i allClients heq
    have hloop := seqClientLoop_runs env limP brk hasStop runId allClients.length
      (if p0 != [] then (limC allClients).filter (fun c => !(p0.contains c.id))
       else limC allClients) 1 s0 p0 (emit Ev.fetchClients w)
    split
    · rename_i s1 p1 w1 heq2
      have hruns : w1.db.runs = w.db.runs := hloop.1 s1 p1 w1 heq2
      have hrun2 : hasRunId w1.db.runs runId := by rw [hruns]; exact hrun
      have hset := runStatusOf_setRows runId s1.total_phones s1.new_phones
        "completed" s1.errors _ hrun2
      refine ⟨⟨"completed", hset.1, Or.inl rfl⟩, hset.2, ?_, ?_⟩
      · intro h; cases h
      · intro _
        right
        simp [clearCkpt, updRun_trace]
    · rename_i s1 p1 w1 heq2
      obtain ⟨hruns, hck, hmem⟩ := hloop.2.2 s1 p1 w1 heq2
      have hrw : (emit Ev.fetchClients w).db.runs = w.db.runs := rfl
      rw [hrw] at hruns
      have hset := runStatusOf_setRows runId s1.total_phones s1.new_phones
        "stopped" s1.errors _ hrun
      refine ⟨⟨"stopped", ?_, Or.inr (Or.inl rfl)⟩, ?_, ?_, ?_⟩
      · rw [hruns]; exact hset.1
      · rw [hruns]; exact hset.2
      · intro h; cases h
      · intro _; left; exact hmem
    · rename_i s1 p1 w1 heq2
      have hruns : w1.db.runs = w.db.runs := hloop.2.1 s1 p1 w1 heq2
      have hrun2 : hasRunId w1.db.runs runId := by rw [hruns]; exact hrun
      have hrun3 : hasRunId (saveCkpt runId allClients.length p1 s1 w1).db.runs runId :=
        hrun2
      have hset := runStatusOf_setRows runId s1.total_phones s1.new_phones
        "stopped" s1.errors _ hrun3
      refine ⟨⟨"stopped", hset.1, Or.inr (Or.inl rfl)⟩, hset.2, ?_, ?_⟩
      · intro h; cases h
      · intro _
        left
        simp [updRun_trace, saveCkpt_trace]

/-- Amended C2, parallel part over the main body. -/
lemma parMain_exit_paths (env : Env) (limC : List ClientT → List ClientT)
    (limP : List ProjectT → List ProjectT) (brk : Nat → Bool) (hasStop : Bool)
    (runId : Nat) (s0 : Stats) (p0 : List Nat) (w : W)
    (hrun : hasRunId w.db.runs runId) :
    (∃ st, runStatusOf (parMain env limC limP brk hasStop runId s0 p0 w).w.db.runs
        runId = some st ∧ (st = "completed" ∨ st = "stopped" ∨ st = "failed")) ∧
    runErrorsOf (parMain env limC limP brk hasStop runId s0 p0 w).w.db.runs runId
      = some (parMain env limC limP brk hasStop runId s0 p0 w).stats.errors ∧
    ((parMain env limC limP brk hasStop runId s0 p0 w).res = .exc →
      (parMain env limC limP brk hasStop runId s0 p0 w).w.ckpt = w.ckpt) ∧
    ((parMain env limC limP brk hasStop runId s0 p0 w).res ≠ .exc →
      Ev.saveState ∈ (parMain env limC limP brk hasStop runId s0 p0 w).w.trace ∨
      Ev.clearState ∈ (parMain env limC limP brk hasStop runId s0 p0 w).w.trace) := by
  have hrun1 : hasRunId (emit Ev.fetchClients w).db.runs runId := hrun
  simp only [parMain]
  split
  · have hset := runStatusOf_setRows runId s0.total_phones s0.new_phones "failed"
      s0.errors _ hrun1
    exact ⟨⟨"failed", hset.1, Or.inr (Or.inr rfl)⟩, hset.2,
      fun _ => rfl, fun hne => absurd rfl hne⟩
  · rename_i allClients heq
    have hloop := parDrive_shape env limP brk hasStop runId allClients.length
      (if p0 != [] then (limC allClients).filter (fun c => !(p0.contains c.id))
       else limC allClients) s0 p0 (emit Ev.fetchClients w) hrun1
    split
    · rename_i s1 p1 w1 heq2
      obtain ⟨hst, herr, hck, hmem⟩ := hloop.2 s1 p1 w1 heq2
      refine ⟨⟨"stopped", hst, Or.inr (Or.inl rfl)⟩, herr, ?_, ?_⟩
      · intro h; cases h
      · intro _; left; exact hmem
    · rename_i s1 p1 w1 heq2
      have hrun2 : hasRunId w1.db.runs runId := hloop.1 s1 p1 w1 heq2
      have hset := runStatusOf_setRows runId s1.total_phones s1.new_phones
        "completed" s1.errors _ hrun2
      refine ⟨⟨"completed", hset.1, Or.inl rfl⟩, hset.2, ?_, ?_⟩
      · intro h; cases h
      · intro _
        right
        simp [clearCkpt, updRun_trace]

/-- C2 amended. For both orchestrators, whenever `collect` terminates the
run's status has been updated to a terminal value (`completed`, `stopped` or
`failed`) with the accumulated error count recorded — no run is left
`running` — and on the stop, interrupt and completion exits the checkpoint is
written or cleared together with the status; on the fatal-error exit (the
client-list fetch raising) only the run status is updated and the checkpoint
file is left exactly as it was. -/
theorem collect_exit_paths_amended (env : Env)
    (limC : List ClientT → List ClientT) (limP : List ProjectT → List ProjectT)
    (brk : Nat → Bool) (hasStop : Bool) (runId : Nat) (s0 : Stats)
    (p0 : List Nat) (w : W) (hrun : hasRunId w.db.runs runId) :
    ((∃ st, runStatusOf (seqMain env limC limP brk hasStop runId s0 p0 w).w.db.runs
        runId = some st ∧ (st = "completed" ∨ st = "stopped" ∨ st = "failed")) ∧
     runErrorsOf (seqMain env limC limP brk hasStop runId s0 p0 w).w.db.runs runId
       = some (seqMain env limC limP brk hasStop runId s0 p0 w).stats.errors ∧
     ((seqMain env limC limP brk hasStop runId s0 p0 w).res = .exc →
       (seqMain env limC limP brk hasStop runId s0 p0 w).w.ckpt = w.ckpt) ∧
     ((seqMain env limC limP brk hasStop runId s0 p0 w).res ≠ .exc →
       Ev.saveState ∈ (seqMain env limC limP brk hasStop runId s0 p0 w).w.trace ∨
       Ev.clearState ∈ (seqMain env limC limP brk hasStop runId s0 p0 w).w.trace)) ∧
    ((∃ st, runStatusOf (parMain env limC limP brk hasStop runId s0 p0 w).w.db.runs
        runId = some st ∧ (st = "completed" ∨ st = "stopped" ∨ st = "failed")) ∧
     runErrorsOf (parMain env limC limP brk hasStop runId s0 p0 w).w.db.runs runId
       = some (parMain env limC limP brk hasStop runId s0 p0 w).stats.errors ∧
     ((parMain env limC limP brk hasStop runId s0 p0 w).res = .exc →
       (parMain env limC limP brk hasStop runId s0 p0 w).w.ckpt = w.ckpt) ∧
     ((parMain env limC limP brk hasStop runId s0 p0 w).res ≠ .exc →
       Ev.saveState ∈ (parMain env limC limP brk hasStop runId s0 p0 w).w.trace ∨
       Ev.clearState ∈ (parMain env limC limP brk hasStop runId s0 p0 w).w.trace)) :=
  ⟨seqMain_exit_paths env limC limP brk hasStop runId s0 p0 w hrun,
   parMain_exit_paths env limC limP brk hasStop runId s0 p0 w hrun⟩

/-- A world holding one `running` run row with id 1. -/
def wRun : W := ⟨⟨[], [], [], [], [⟨1, "running", 0, 0, 0⟩], 2, 1⟩, none, [], 0⟩

/-- Witness for the amended C2 at a concrete input: one client, two projects,
run 1 present and running. -/
theorem collect_exit_paths_amended_witness :
    ((∃ st, runStatusOf (seqMain envTwoProj (applyLimit none) (applyLimit none)
        (pageBreak none) false 1 zeroStats [] wRun).w.db.runs 1 = some st ∧
        (st = "completed" ∨ st = "stopped" ∨ st = "failed")) ∧
     runErrorsOf (seqMain envTwoProj (applyLimit none) (applyLimit none)
       (pageBreak none) false 1 zeroStats [] wRun).w.db.runs 1
       = some (seqMain envTwoProj (applyLimit none) (applyLimit none)
           (pageBreak none) false 1 zeroStats [] wRun).stats.errors ∧
     ((seqMain envTwoProj (applyLimit none) (applyLimit none)
        (pageBreak none) false 1 zeroStats [] wRun).res = .exc →
       (seqMain envTwoProj (applyLimit none) (applyLimit none)
        (pageBreak none) false 1 zeroStats [] wRun).w.ckpt = wRun.ckpt) ∧
     ((seqMain envTwoProj (applyLimit none) (applyLimit none)
        (pageBreak none) false 1 zeroStats [] wRun).res ≠ .exc →
       Ev.saveState ∈ (seqMain envTwoProj (applyLimit none) (applyLimit none)
         (pageBreak none) false 1 zeroStats [] wRun).w.trace ∨
       Ev.clearState ∈ (seqMain envTwoProj (applyLimit none) (applyLimit none)
         (pageBreak none) false 1 zeroStats [] wRun).w.trace)) ∧
    ((∃ st, runStatusOf (parMain envTwoProj (applyLimit none) (applyLimit none)
        (pageBreak none) false 1 zeroStats [] wRun).w.db.runs 1 = some st ∧
        (st = "completed" ∨ st = "stopped" ∨ st = "failed")) ∧
     runErrorsOf (parMain envTwoProj (applyLimit none) (applyLimit none)
       (pageBreak none) false 1 zeroStats [] wRun).w.db.runs 1
       = some (parMain envTwoProj (applyLimit none) (applyLimit none)
           (pageBreak none) false 1 zeroStats [] wRun).stats.errors ∧
     ((parMain envTwoProj (applyLimit none) (applyLimit none)
        (pageBreak none) false 1 zeroStats [] wRun).res = .exc →
       (parMain envTwoProj (applyLimit none) (applyLimit none)
        (pageBreak none) false 1 zeroStats [] wRun).w.ckpt = wRun.ckpt) ∧
     ((parMain envTwoProj (applyLimit none) (applyLimit none)
        (pageBreak none) false 1 zeroStats [] wRun).res ≠ .exc →
       Ev.saveState ∈ (parMain envTwoProj (applyLimit none) (applyLimit none)
         (pageBreak none) false 1 zeroStats [] wRun).w.trace ∨
       Ev.clearState ∈ (parMain envTwoProj (applyLimit none) (applyLimit none)
         (pageBreak none) false 1 zeroStats [] wRun).w.trace)) :=
  collect_exit_paths_amended envTwoProj (applyLimit none) (applyLimit none)
    (pageBreak none) false 1 zeroStats [] wRun ⟨_, List.mem_cons_self _ _, rfl⟩

/-! ## C3 amended: the stop path before any client -/

lemma poll_trace (env : Env) (hasStop : Bool) (w : W) :
    (poll env hasStop w).2.trace = w.trace := by
  unfold poll; split <;> rfl

/-- C3 amended. When the cancellation predicate signals at the sequential
orchestrator's test before processing a client — at any point of the
traversal, with whatever processed-client ids and stats have accumulated
(including a resumed run's adopted ones) — `collect` persists a checkpoint
holding exactly the current processed ids and stats, marks the run `stopped`,
performs no processing of the current client (the trace gains only the save
and status-write events), and returns immediately without a value (Python
`None`).  The parallel `collect` tests the predicate only as each unit of
work completes; on signal it persists the checkpoint together with the
`stopped` status via `save_state` and returns the value `"stopped"`, without
merging the completed unit's tally or marking its client processed. -/
theorem stop_before_client_amended (env : Env)
    (limC : List ClientT → List ClientT) (limP : List ProjectT → List ProjectT)
    (brk : Nat → Bool) (runId totalOrig idx : Nat) (c : ClientT)
    (rest : List ClientT) (s : Stats) (p : List Nat) (w : W) :
    (env.stopSignal w.polls = true →
      seqClientLoop env limP brk true runId totalOrig (c :: rest) idx s p w
        = LoopRes.early s p (updRun runId s "stopped"
            (saveCkpt runId totalOrig p s (poll env true w).2)) ∧
      (updRun runId s "stopped"
          (saveCkpt runId totalOrig p s (poll env true w).2)).ckpt
        = some ⟨runId, totalOrig, p.length, p, s⟩ ∧
      (updRun runId s "stopped"
          (saveCkpt runId totalOrig p s (poll env true w).2)).trace
        = w.trace ++ [Ev.saveState, Ev.setRunStatus runId "stopped"] ∧
      (hasRunId w.db.runs runId →
        runStatusOf (updRun runId s "stopped"
            (saveCkpt runId totalOrig p s (poll env true w).2)).db.runs runId
          = some "stopped")) ∧
    (∀ (s0 : Stats) (p0 : List Nat) (all : List ClientT) (sE : Stats)
        (pE : List Nat) (wE : W),
      env.clientsResult = Except.ok all →
      seqClientLoop env limP brk true runId all.length
          (if p0 != [] then (limC all).filter (fun c1 => !(p0.contains c1.id))
           else limC all) 1 s0 p0 (emit Ev.fetchClients w)
        = LoopRes.early sE pE wE →
      seqMain env limC limP brk true runId s0 p0 w
        = ⟨PyRes.ok none, runId, sE, pE, wE⟩) ∧
    (env.stopSignal
        (parProcessClient env limP brk true runId c w).w.polls = true →
      parDrive env limP brk true runId totalOrig (c :: rest) s p w
        = ParLoopRes.stopped s p (parSaveState runId totalOrig p s
            (poll env true (parProcessClient env limP brk true runId c w).w).2) ∧
      (parSaveState runId totalOrig p s
          (poll env true
            (parProcessClient env limP brk true runId c w).w).2).ckpt
        = some ⟨runId, totalOrig, p.length, p, s⟩) ∧
    (∀ (s0 : Stats) (p0 : List Nat) (all : List ClientT) (sE : Stats)
        (pE : List Nat) (wE : W),
      env.clientsResult = Except.ok all →
      parDrive env limP brk true runId all.length
          (if p0 != [] then (limC all).filter (fun c1 => !(p0.contains c1.id))
           else limC all) s0 p0 (emit Ev.fetchClients w)
        = ParLoopRes.stopped sE pE wE →
      parMain env limC limP brk true runId s0 p0 w
        = ⟨PyRes.ok (some "stopped"), runId, sE, pE, wE⟩) := by
  refine ⟨fun hsig => ⟨?_, ?_, ?_, ?_⟩,
    fun s0 p0 all sE pE wE hok hloop => ?_,
    fun hsig => ⟨?_, ?_⟩,
    fun s0 p0 all sE pE wE hok hloop => ?_⟩
  · simp [seqClientLoop, poll, hsig]
  · rw [updRun_ckpt, saveCkpt_ckpt]
  · rw [updRun_trace, saveCkpt_trace, poll_trace, List.append_assoc]
    rfl
  · intro hrun
    rw [updRun_runs]
    have h1 : (saveCkpt runId totalOrig p s (poll env true w).2).db.runs
        = w.db.runs := by
      rw [congrArg Db.runs (saveCkpt_db _ _ _ _ _),
        congrArg Db.runs (poll_db env true w)]
    rw [h1]
    exact (runStatusOf_setRows _ _ _ _ _ _ hrun).1
  · simp only [seqMain, hok]
    rw [hloop]
  · simp [parDrive, poll, hsig]
  · rw [parSaveState_ckpt]
  · simp only [parMain, hok]
    rw [hloop]

/-- Witness for the amended C3: one client, stop signalled from the start of
a fresh run. -/
theorem stop_before_client_amended_witness :
    (seqMain envStopNow (applyLimit none) (applyLimit none) (pageBreak none)
        true 1 zeroStats [] w0).res = PyRes.ok none ∧
    (seqMain envStopNow (applyLimit none) (applyLimit none) (pageBreak none)
        true 1 zeroStats [] w0).w.ckpt = some ⟨1, 1, 0, [], zeroStats⟩ ∧
    (seqMain envStopNow (applyLimit none) (applyLimit none) (pageBreak none)
        true 1 zeroStats [] w0).w.trace
      = [Ev.fetchClients, Ev.saveState, Ev.setRunStatus 1 "stopped"] ∧
    (parMain envStopNow (applyLimit none) (applyLimit none) (pageBreak none)
        true 1 zeroStats [] w0).res = PyRes.ok (some "stopped") ∧
    (parMain envStopNow (applyLimit none) (applyLimit none) (pageBreak none)
        true 1 zeroStats [] w0).processed = [] ∧
    (parMain envStopNow (applyLimit none) (applyLimit none) (pageBreak none)
        true 1 zeroStats [] w0).stats = zeroStats := by
  have hA := stop_before_client_amended envStopNow (applyLimit none)
    (applyLimit none) (pageBreak none) 1 1 1 ⟨1, "a"⟩ [] zeroStats []
    (emit Ev.fetchClients w0)
  have hB := stop_before_client_amended envStopNow (applyLimit none)
    (applyLimit none) (pageBreak none) 1 1 1 ⟨1, "a"⟩ [] zeroStats [] w0
  obtain ⟨hseq, hck, htr, _⟩ := hA.1 rfl
  have hmain := hB.2.1 zeroStats [] [⟨1, "a"⟩] zeroStats [] _ rfl hseq
  obtain ⟨hpar, hpck⟩ := hA.2.2.1 rfl
  have hpmain := hB.2.2.2 zeroStats [] [⟨1, "a"⟩] zeroStats [] _ rfl hpar
  rw [hmain, hpmain]
  refine ⟨rfl, hck, ?_, rfl, rfl, rfl⟩
  rw [htr]
  rfl

/-! ## C4 amended: the parallel worker rate-limits every outbound fetch -/

/-- Whether a trace ends with a `RateLimiter.wait` (default `b` when empty). -/
def endWait (b : Bool) : List Ev → Bool
  | [] => b
  | e :: rest => endWait (e == Ev.rlWait) rest

lemma rlImmediate_append (t1 : List Ev) :
    ∀ (b : Bool) (t2 : List Ev),
      rlImmediate b (t1 ++ t2)
        = (rlImmediate b t1 && rlImmediate (endWait b t1) t2) := by
  induction t1 with
  | nil => intro b t2; simp [rlImmediate, endWait]
  | cons e rest ih =>
      intro b t2
      simp only [List.cons_append, rlImmediate, endWait, List.append_eq, ih,
        Bool.and_assoc]

/-- A trace fragment whose fetches are all internally rate-limited: it checks
out from every starting state. -/
def rlSafe (d : List Ev) : Prop := ∀ b, rlImmediate b d = true

lemma rlSafe_nil : rlSafe [] := fun _ => rfl

lemma rlSafe_append {d1 d2 : List Ev} (h1 : rlSafe d1) (h2 : rlSafe d2) :
    rlSafe (d1 ++ d2) := by
  intro b
  rw [rlImmediate_append, h1 b, h2 (endWait b d1)]
  rfl

lemma rlSafe_single {e : Ev} (h : isOutFetch e = false) : rlSafe [e] := by
  intro b
  simp [rlImmediate, h]

lemma rlSafe_wait_then {e : Ev} : rlSafe [Ev.rlWait, e] := by
  intro b
  simp [rlImmediate, isOutFetch]

lemma parProcessPhone_trace (valid : List Char → Bool) (runId projectId : Nat)
    (rec : PhoneRec) (cst : ClientStats) (w : W) :
    (parProcessPhone valid runId projectId rec cst w).2.trace = w.trace := by
  unfold parProcessPhone
  split
  · split <;> rfl
  · rfl

lemma parProcessPhones_trace (valid : List Char → Bool) (runId projectId : Nat)
    (recs : List PhoneRec) :
    ∀ (cst : ClientStats) (w : W),
      (parProcessPhones valid runId projectId recs cst w).2.trace = w.trace := by
  induction recs with
  | nil => intro cst w; rfl
  | cons r rest ih =>
      intro cst w
      simp only [parProcessPhones]
      rw [ih, parProcessPhone_trace]

lemma parPageLoop_rlSafe (env : Env) (brk : Nat → Bool) (hasStop : Bool)
    (runId projectId : Nat) :
    ∀ (fuel page : Nat) (cst : ClientStats) (w : W),
      ∃ d, (parPageLoop env brk hasStop runId projectId fuel page cst w).w.trace
          = w.trace ++ d ∧ rlSafe d := by
  intro fuel
  induction fuel with
  | zero => intro page cst w; exact ⟨[], by simp [parPageLoop, ParStep.w], rlSafe_nil⟩
  | succ n ih =>
      intro page cst w
      simp only [parPageLoop]
      split
      · exact ⟨[], by simp [ParStep.w, poll_trace], rlSafe_nil⟩
      · split
        · exact ⟨[], by simp [ParStep.w, poll_trace], rlSafe_nil⟩
        · split
          · refine ⟨[Ev.rlWait, Ev.fetchPhones projectId page], ?_, rlSafe_wait_then⟩
            simp [ParStep.w, emit, poll_trace]
          · refine ⟨[Ev.rlWait, Ev.fetchPhones projectId page], ?_, rlSafe_wait_then⟩
            simp [ParStep.w, emit, poll_trace]
          · obtain ⟨d, hd, hsafe⟩ := ih (page + 1) _ _
            refine ⟨[Ev.rlWait, Ev.fetchPhones projectId page] ++ d, ?_,
              rlSafe_append rlSafe_wait_then hsafe⟩
            rw [hd, parProcessPhones_trace]
            simp [emit, poll_trace]

lemma parProjectLoop_rlSafe (env : Env) (brk : Nat → Bool) (hasStop : Bool)
    (runId clientId : Nat) :
    ∀ (ps : List ProjectT) (cst : ClientStats) (w : W),
      ∃ d, (parProjectLoop env brk hasStop runId clientId ps cst w).w.trace
          = w.trace ++ d ∧ rlSafe d := by
  intro ps
  induction ps with
  | nil => intro cst w; exact ⟨[], by simp [parProjectLoop, ParStep.w], rlSafe_nil⟩
  | cons p rest ih =>
      intro cst w
      simp only [parProjectLoop]
      split
      · exact ⟨[], by simp [ParStep.w, poll_trace], rlSafe_nil⟩
      · obtain ⟨d1, hd1, hsafe1⟩ := parPageLoop_rlSafe env brk hasStop runId p.id
          ((env.phonePages p.id).length + 1) 1
          { cst with projects := cst.projects + 1 }
          (emit (Ev.upsertProject p.id)
            { emit Ev.rlWait (poll env hasStop w).2 with
              db := (emit Ev.rlWait (poll env hasStop w).2).db.insert_project
                p.id p.name clientId })
        rcases hR : parPageLoop env brk hasStop runId p.id
            ((env.phonePages p.id).length + 1) 1
            { cst with projects := cst.projects + 1 }
            (emit (Ev.upsertProject p.id)
              { emit Ev.rlWait (poll env hasStop w).2 with
                db := (emit Ev.rlWait (poll env hasStop w).2).db.insert_project
                  p.id p.name clientId }) with ⟨cst1, w1⟩ | ⟨w1⟩ <;>
          rw [hR] at hd1
        · obtain ⟨d2, hd2, hsafe2⟩ := ih cst1 w1
          refine ⟨([Ev.rlWait, Ev.upsertProject p.id] ++ d1) ++ d2, ?_, ?_⟩
          · rw [hd2]
            simp only [ParStep.w] at hd1
            rw [hd1]
            simp [emit, poll_trace]
          · exact rlSafe_append (rlSafe_append rlSafe_wait_then hsafe1) hsafe2
        · refine ⟨[Ev.rlWait, Ev.upsertProject p.id] ++ d1, ?_,
            rlSafe_append rlSafe_wait_then hsafe1⟩
          simp only [ParStep.w] at hd1 ⊢
          rw [hd1]
          simp [emit, poll_trace]

lemma parProcessClient_rlSafe (env : Env) (limP : List ProjectT → List ProjectT)
    (brk : Nat → Bool) (hasStop : Bool) (runId : Nat) (c : ClientT) (w : W) :
    ∃ d, (parProcessClient env limP brk hasStop runId c w).w.trace
        = w.trace ++ d ∧ rlSafe d := by
  have hsafePre : rlSafe [Ev.rlWait, Ev.upsertClient c.id, Ev.rlWait,
      Ev.fetchProjects c.id] := by
    intro b
    simp [rlImmediate, isOutFetch]
  unfold parProcessClient
  split
  · refine ⟨[Ev.rlWait, Ev.upsertClient c.id, Ev.rlWait, Ev.fetchProjects c.id],
      ?_, hsafePre⟩
    simp [ParStep.w, emit]
  · rename_i ps hps
    obtain ⟨d, hd, hsafe⟩ := parProjectLoop_rlSafe env brk hasStop runId c.id
      (limP ps) ⟨0, 0, 0⟩
      (emit (Ev.fetchProjects c.id) (emit Ev.rlWait (emit (Ev.upsertClient c.id)
        { emit Ev.rlWait w with
          db := (emit Ev.rlWait w).db.insert_client c.id c.username })))
    refine ⟨[Ev.rlWait, Ev.upsertClient c.id, Ev.rlWait, Ev.fetchProjects c.id] ++ d,
      ?_, rlSafe_append hsafePre hsafe⟩
    refine hd.trans ?_
    simp [emit]

/-- C4 amended (parallel part). Starting from an empty trace, the whole trace
of `_process_client` satisfies `rlImmediate`: every project-list fetch and
every phone-page fetch is immediately preceded by a `RateLimiter.wait()`
call.  (The sequential orchestrator does not satisfy this: it sleeps after
the project-list fetch and after each non-empty page, so a phone-page fetch
directly following an empty page of the previous project has no delay before
it — see the counterexample — and the client-list fetch is not rate-limited
in either orchestrator.) -/
theorem par_rate_limiter_before_fetches (env : Env)
    (limP : List ProjectT → List ProjectT) (brk : Nat → Bool) (hasStop : Bool)
    (runId : Nat) (c : ClientT) (db : Db) (ck : Option Checkpoint) (polls : Nat) :
    rlImmediate false
      (parProcessClient env limP brk hasStop runId c ⟨db, ck, [], polls⟩).w.trace
      = true := by
  obtain ⟨d, hd, hsafe⟩ := parProcessClient_rlSafe env limP brk hasStop runId c
    ⟨db, ck, [], polls⟩
  have hnil : ((⟨db, ck, [], polls⟩ : W)).trace ++ d = d := by simp
  rw [hd, hnil]
  exact hsafe false
/-! ## C5: stats bound and global phone uniqueness -/

/-- No two rows of the `phones` table share a canonical value. -/
def phonesUnique (db : Db) : Prop :=
  db.phones.Pairwise (fun a b => a.phone ≠ b.phone)

/-- The invariant carried through the sequential traversal. -/
def Inv (s : Stats) (w : W) : Prop :=
  phonesUnique w.db ∧ s.new_phones ≤ s.total_phones

lemma insert_project_phone_phones (db : Db) (pid phid rid : Nat) (ca : String) :
    (db.insert_project_phone pid phid rid ca).phones = db.phones := by
  unfold Db.insert_project_phone; split <;> rfl

lemma insert_client_phones (db : Db) (cid : Nat) (u : String) :
    (db.insert_client cid u).phones = db.phones := by
  unfold Db.insert_client; split <;> rfl

lemma insert_project_phones (db : Db) (pid : Nat) (n : String) (cid : Nat) :
    (db.insert_project pid n cid).phones = db.phones := by
  unfold Db.insert_project; split <;> rfl

lemma phonesUnique_insert_phone {db : Db} {e164 original : String} {runId : Nat}
    (hu : phonesUnique db) (hnone : db.get_phone_by_number e164 = none) :
    phonesUnique (db.insert_phone e164 original runId).2 := by
  have hall := List.find?_eq_none.mp hnone
  unfold phonesUnique Db.insert_phone
  rw [List.pairwise_append]
  refine ⟨hu, List.pairwise_singleton _ _, ?_⟩
  intro a ha b hb
  have hb2 : b = ⟨db.nextPhoneId, e164, original, runId⟩ := List.mem_singleton.mp hb
  subst hb2
  intro hEq
  exact absurd (beq_iff_eq.mpr hEq) (by simpa using hall a ha)

lemma processPhone_inv {s : Stats} {w : W} (valid : List Char → Bool)
    (runId projectId : Nat) (rec : PhoneRec) (h : Inv s w) :
    Inv (processPhone valid runId projectId rec s w).1
        (processPhone valid runId projectId rec s w).2 := by
  unfold processPhone
  split
  · rename_i e164 hn
    split
    · rename_i hfind
      constructor
      · show phonesUnique ((w.db.insert_phone e164 rec.phone runId).2.insert_project_phone
          projectId (w.db.insert_phone e164 rec.phone runId).1 runId rec.created_at)
        unfold phonesUnique
        rw [insert_project_phone_phones]
        exact phonesUnique_insert_phone h.1 hfind
      · show s.new_phones + 1 ≤ s.total_phones + 1
        exact Nat.add_le_add_right h.2 1
    · rename_i row hfind
      constructor
      · show phonesUnique (w.db.insert_project_phone projectId row.id runId rec.created_at)
        unfold phonesUnique
        rw [insert_project_phone_phones]
        exact h.1
      · exact Nat.le_succ_of_le h.2
  · exact h

lemma processPhones_inv (valid : List Char → Bool) (runId projectId : Nat)
    (recs : List PhoneRec) :
    ∀ {s : Stats} {w : W}, Inv s w →
      Inv (processPhones valid runId projectId recs s w).1
          (processPhones valid runId projectId recs s w).2 := by
  induction recs with
  | nil => intro s w h; exact h
  | cons r rest ih =>
      intro s w h
      simp only [processPhones]
      exact ih (processPhone_inv valid runId projectId r h)

lemma poll_inv {s : Stats} {w : W} (env : Env) (hasStop : Bool) (h : Inv s w) :
    Inv s (poll env hasStop w).2 := by
  rw [Inv, poll_db]
  exact h

lemma emit_inv {s : Stats} {w : W} (e : Ev) (h : Inv s w) : Inv s (emit e w) := h

lemma seqPageLoop_inv (env : Env) (brk : Nat → Bool) (hasStop : Bool)
    (runId projectId : Nat) :
    ∀ (fuel page : Nat) {s : Stats} {w : W}, Inv s w →
      Inv (seqPageLoop env brk hasStop runId projectId fuel page s w).s
          (seqPageLoop env brk hasStop runId projectId fuel page s w).w := by
  intro fuel
  induction fuel with
  | zero => intro page s w h; exact h
  | succ n ih =>
      intro page s w h
      simp only [seqPageLoop]
      split
      · exact poll_inv env hasStop h
      · split
        · exact poll_inv env hasStop h
        · split
          · exact emit_inv _ (poll_inv env hasStop h)
          · exact emit_inv _ (poll_inv env hasStop h)
          · exact ih _ (emit_inv _
              (processPhones_inv env.valid runId projectId _
                (emit_inv _ (poll_inv env hasStop h))))

lemma seqProjectLoop_inv (env : Env) (brk : Nat → Bool) (hasStop : Bool)
    (runId clientId : Nat) :
    ∀ (ps : List ProjectT) {s : Stats} {w : W}, Inv s w →
      Inv (seqProjectLoop env brk hasStop runId clientId ps s w).s
          (seqProjectLoop env brk hasStop runId clientId ps s w).w := by
  intro ps
  induction ps with
  | nil => intro s w h; exact h
  | cons p rest ih =>
      intro s w h
      simp only [seqProjectLoop]
      have hpre : Inv s (emit (Ev.upsertProject p.id)
          { w with db := w.db.insert_project p.id p.name clientId }) := by
        refine ⟨?_, h.2⟩
        show phonesUnique (w.db.insert_project p.id p.name clientId)
        unfold phonesUnique
        rw [insert_project_phones]
        exact h.1
      have hpage := seqPageLoop_inv env brk hasStop runId p.id
        ((env.phonePages p.id).length + 1) 1 hpre
      split
      · rename_i s1 w1 heq
        rw [heq] at hpage
        exact ih hpage
      · exact hpage

lemma seqClientBody_inv (env : Env) (limP : List ProjectT → List ProjectT)
    (brk : Nat → Bool) (hasStop : Bool) (runId : Nat) (c : ClientT)
    {s : Stats} {w : W} (h : Inv s w) :
    Inv (seqClientBody env limP brk hasStop runId c s w).s
        (seqClientBody env limP brk hasStop runId c s w).w := by
  unfold seqClientBody
  have hpre : Inv s (emit (Ev.fetchProjects c.id) (emit (Ev.upsertClient c.id)
      { w with db := w.db.insert_client c.id c.username })) := by
    refine ⟨?_, h.2⟩
    show phonesUnique (w.db.insert_client c.id c.username)
    unfold phonesUnique
    rw [insert_client_phones]
    exact h.1
  split
  · exact hpre
  · exact seqProjectLoop_inv env brk hasStop runId c.id _ (emit_inv _ hpre)

lemma saveCkpt_inv {s : Stats} {w : W} (runId totalOrig : Nat) (p : List Nat)
    (s2 : Stats) (h : Inv s w) : Inv s (saveCkpt runId totalOrig p s2 w) := h

lemma updRun_inv {s : Stats} {w : W} (runId : Nat) (s2 : Stats) (st : String)
    (h : Inv s w) : Inv s (updRun runId s2 st w) := by
  refine ⟨?_, h.2⟩
  show phonesUnique (w.db.update_run_stats runId s2.total_phones s2.new_phones
    st s2.errors)
  exact h.1

lemma errors_bump_inv {s : Stats} {w : W} (h : Inv s w) :
    Inv { s with errors := s.errors + 1 } w := ⟨h.1, h.2⟩

lemma seqClientLoop_inv (env : Env) (limP : List ProjectT → List ProjectT)
    (brk : Nat → Bool) (hasStop : Bool) (runId totalOrig : Nat) :
    ∀ (cs : List ClientT) (idx : Nat) {s : Stats} (p : List Nat) {w : W}, Inv s w →
      Inv (seqClientLoop env limP brk hasStop runId totalOrig cs idx s p w).stats
          (seqClientLoop env limP brk hasStop runId totalOrig cs idx s p w).w := by
  intro cs
  induction cs with
  | nil => intro idx s p w h; exact h
  | cons c rest ih =>
      intro idx s p w h
      simp only [seqClientLoop]
      split
      · exact updRun_inv _ _ _ (saveCkpt_inv _ _ _ _ (poll_inv env hasStop h))
      · have hbody := seqClientBody_inv env limP brk hasStop runId c
          (poll_inv env hasStop h)
        split
        · rename_i s1 w1 heq
          rw [heq] at hbody
          exact hbody
        · rename_i s1 w1 heq
          rw [heq] at hbody
          exact ih _ _ (errors_bump_inv hbody)
        · rename_i s1 w1 heq
          rw [heq] at hbody
          refine ih _ _ ?_
          by_cases hidx : (idx % 5 == 0) = true
          · simp only [hidx, if_true]
            exact saveCkpt_inv _ _ _ _ hbody
          · simp only [Bool.not_eq_true] at hidx
            simp only [hidx, Bool.false_eq_true, if_false]
            exact hbody

lemma seqMain_inv (env : Env) (limC : List ClientT → List ClientT)
    (limP : List ProjectT → List ProjectT) (brk : Nat → Bool) (hasStop : Bool)
    (runId : Nat) {s0 : Stats} (p0 : List Nat) {w : W} (h : Inv s0 w) :
    Inv (seqMain env limC limP brk hasStop runId s0 p0 w).stats
        (seqMain env limC limP brk hasStop runId s0 p0 w).w := by
  simp only [seqMain]
  split
  · exact updRun_inv _ _ _ (emit_inv _ h)
  · rename_i all heq
    have hloop := seqClientLoop_inv env limP brk hasStop runId all.length
      (if p0 != [] then (limC all).filter (fun c => !(p0.contains c.id))
       else limC all) 1 p0 (emit_inv Ev.fetchClients h)
    split
    · rename_i s1 p1 w1 heq2
      rw [heq2] at hloop
      exact updRun_inv _ _ _ hloop
    · rename_i s1 p1 w1 heq2
      rw [heq2] at hloop
      exact hloop
    · rename_i s1 p1 w1 heq2
      rw [heq2] at hloop
      exact updRun_inv _ _ _ (saveCkpt_inv _ _ _ _ hloop)

/-- The invariant carried through a parallel unit of work: the store is
duplicate-free and the local tally satisfies the bound. -/
def ParStepInv : ParStep → Prop
  | .ok cst w => phonesUnique w.db ∧ cst.new_phones ≤ cst.phones
  | .exc w => phonesUnique w.db

lemma parProcessPhone_inv {cst : ClientStats} {w : W} (valid : List Char → Bool)
    (runId projectId : Nat) (rec : PhoneRec)
    (hu : phonesUnique w.db) (hb : cst.new_phones ≤ cst.phones) :
    phonesUnique (parProcessPhone valid runId projectId rec cst w).2.db ∧
    (parProcessPhone valid runId projectId rec cst w).1.new_phones
      ≤ (parProcessPhone valid runId projectId rec cst w).1.phones := by
  unfold parProcessPhone
  split
  · rename_i e164 hn
    split
    · rename_i hfind
      constructor
      · show phonesUnique ((w.db.insert_phone e164 rec.phone runId).2.insert_project_phone
          projectId (w.db.insert_phone e164 rec.phone runId).1 runId rec.created_at)
        unfold phonesUnique
        rw [insert_project_phone_phones]
        exact phonesUnique_insert_phone hu hfind
      · exact Nat.add_le_add_right hb 1
    · rename_i row hfind
      constructor
      · show phonesUnique (w.db.insert_project_phone projectId row.id runId rec.created_at)
        unfold phonesUnique
        rw [insert_project_phone_phones]
        exact hu
      · exact Nat.le_succ_of_le hb
  · exact ⟨hu, hb⟩

lemma parProcessPhones_inv (valid : List Char → Bool) (runId projectId : Nat)
    (recs : List PhoneRec) :
    ∀ {cst : ClientStats} {w : W},
      phonesUnique w.db → cst.new_phones ≤ cst.phones →
      phonesUnique (parProcessPhones valid runId projectId recs cst w).2.db ∧
      (parProcessPhones valid runId projectId recs cst w).1.new_phones
        ≤ (parProcessPhones valid runId projectId recs cst w).1.phones := by
  induction recs with
  | nil => intro cst w hu hb; exact ⟨hu, hb⟩
  | cons r rest ih =>
      intro cst w hu hb
      simp only [parProcessPhones]
      have := parProcessPhone_inv valid runId projectId r hu hb
      exact ih this.1 this.2

lemma parPageLoop_inv (env : Env) (brk : Nat → Bool) (hasStop : Bool)
    (runId projectId : Nat) :
    ∀ (fuel page : Nat) {cst : ClientStats} {w : W},
      phonesUnique w.db → cst.new_phones ≤ cst.phones →
      ParStepInv (parPageLoop env brk hasStop runId projectId fuel page cst w) := by
  intro fuel
  induction fuel with
  | zero => intro page cst w hu hb; exact ⟨hu, hb⟩
  | succ n ih =>
      intro page cst w hu hb
      have hup : phonesUnique (poll env hasStop w).2.db := by
        rw [poll_db]; exact hu
      simp only [parPageLoop]
      split
      · exact ⟨hup, hb⟩
      · split
        · exact ⟨hup, hb⟩
        · split
          · exact hup
          · exact ⟨hup, hb⟩
          · rename_i a recs hnonnil heq
            have hu2 : phonesUnique (emit (Ev.fetchPhones projectId page)
                (emit Ev.rlWait (poll env hasStop w).2)).db := hup
            have hrec := parProcessPhones_inv env.valid runId projectId recs hu2 hb
            exact ih _ hrec.1 hrec.2

lemma parProjectLoop_inv (env : Env) (brk : Nat → Bool) (hasStop : Bool)
    (runId clientId : Nat) :
    ∀ (ps : List ProjectT) {cst : ClientStats} {w : W},
      phonesUnique w.db → cst.new_phones ≤ cst.phones →
      ParStepInv (parProjectLoop env brk hasStop runId clientId ps cst w) := by
  intro ps
  induction ps with
  | nil => intro cst w hu hb; exact ⟨hu, hb⟩
  | cons p rest ih =>
      intro cst w hu hb
      simp only [parProjectLoop]
      split
      · refine ⟨?_, hb⟩
        rw [poll_db]; exact hu
      · set w2 := emit Ev.rlWait (poll env hasStop w).2 with hw2
        set w3 : W := { w2 with db := w2.db.insert_project p.id p.name clientId }
          with hw3
        set w4 := emit (Ev.upsertProject p.id) w3 with hw4
        set cst2 : ClientStats := { cst with projects := cst.projects + 1 } with hcst2
        have hu2 : phonesUnique w4.db := by
          show phonesUnique (w2.db.insert_project p.id p.name clientId)
          have hph : (w2.db.insert_project p.id p.name clientId).phones
              = w.db.phones := by
            rw [insert_project_phones]
            show (poll env hasStop w).2.db.phones = w.db.phones
            rw [poll_db]
          unfold phonesUnique
          rw [hph]
          exact hu
        have hb2 : cst2.new_phones ≤ cst2.phones := hb
        have hpage := parPageLoop_inv env brk hasStop runId p.id
          ((env.phonePages p.id).length + 1) 1 hu2 hb2
        rcases hR : parPageLoop env brk hasStop runId p.id
            ((env.phonePages p.id).length + 1) 1 cst2 w4 with ⟨cst1, w1⟩ | ⟨w1⟩ <;>
          rw [hR] at hpage
        · exact ih hpage.1 hpage.2
        · exact hpage

lemma parProcessClient_inv (env : Env) (limP : List ProjectT → List ProjectT)
    (brk : Nat → Bool) (hasStop : Bool) (runId : Nat) (c : ClientT)
    {w : W} (hu : phonesUnique w.db) :
    ParStepInv (parProcessClient env limP brk hasStop runId c w) := by
  unfold parProcessClient
  have hu2 : phonesUnique (emit (Ev.fetchProjects c.id) (emit Ev.rlWait
      (emit (Ev.upsertClient c.id)
        { emit Ev.rlWait w with
          db := (emit Ev.rlWait w).db.insert_client c.id c.username }))).db := by
    show phonesUnique ((emit Ev.rlWait w).db.insert_client c.id c.username)
    unfold phonesUnique
    rw [insert_client_phones]
    exact hu
  split
  · exact hu2
  · exact parProjectLoop_inv env brk hasStop runId c.id _ hu2 (Nat.le_refl 0)

lemma parSaveState_inv {s : Stats} {w : W} (runId totalOrig : Nat) (p : List Nat)
    (s2 : Stats) (h : Inv s w) : Inv s (parSaveState runId totalOrig p s2 w) :=
  updRun_inv _ _ _ (saveCkpt_inv _ _ _ _ h)

lemma parDrive_inv (env : Env) (limP : List ProjectT → List ProjectT)
    (brk : Nat → Bool) (hasStop : Bool) (runId totalOrig : Nat) :
    ∀ (cs : List ClientT) {s : Stats} (p : List Nat) {w : W}, Inv s w →
      Inv (parDrive env limP brk hasStop runId totalOrig cs s p w).stats
          (parDrive env limP brk hasStop runId totalOrig cs s p w).w := by
  intro cs
  induction cs with
  | nil => intro s p w h; exact h
  | cons c rest ih =>
      intro s p w h
      have hworker := parProcessClient_inv env limP brk hasStop runId c h.1
      simp only [parDrive]
      split
      · refine parSaveState_inv _ _ _ _ ⟨?_, h.2⟩
        rw [show (poll env hasStop
            (parProcessClient env limP brk hasStop runId c w).w).2.db
            = (parProcessClient env limP brk hasStop runId c w).w.db
          from poll_db env hasStop _]
        rcases hR : parProcessClient env limP brk hasStop runId c w with
          ⟨cst1, w1⟩ | ⟨w1⟩ <;> rw [hR] at hworker
        · exact hworker.1
        · exact hworker
      · split
        · rename_i cst1 w1 heq
          rw [heq] at hworker
          have hpoll : Inv { s with
              total_phones := s.total_phones + cst1.phones,
              new_phones := s.new_phones + cst1.new_phones,
              projects_count := s.projects_count + cst1.projects }
              (poll env hasStop
                (parProcessClient env limP brk hasStop runId c w).w).2 := by
            refine ⟨?_, Nat.add_le_add h.2 hworker.2⟩
            rw [show (poll env hasStop
                (parProcessClient env limP brk hasStop runId c w).w).2.db
                = (parProcessClient env limP brk hasStop runId c w).w.db
              from poll_db env hasStop _, heq]
            exact hworker.1
          refine ih _ ?_
          by_cases hlen : (((p.insert c.id).length % 10 == 0)) = true
          · simp only [hlen, if_true]
            exact parSaveState_inv _ _ _ _ hpoll
          · simp only [Bool.not_eq_true] at hlen
            simp only [hlen, Bool.false_eq_true, if_false]
            exact hpoll
        · rename_i w1 heq
          rw [heq] at hworker
          refine ih _ ⟨?_, h.2⟩
          rw [show (poll env hasStop
              (parProcessClient env limP brk hasStop runId c w).w).2.db
              = (parProcessClient env limP brk hasStop runId c w).w.db
            from poll_db env hasStop _, heq]
          exact hworker

lemma parMain_inv (env : Env) (limC : List ClientT → List ClientT)
    (limP : List ProjectT → List ProjectT) (brk : Nat → Bool) (hasStop : Bool)
    (runId : Nat) {s0 : Stats} (p0 : List Nat) {w : W} (h : Inv s0 w) :
    Inv (parMain env limC limP brk hasStop runId s0 p0 w).stats
        (parMain env limC limP brk hasStop runId s0 p0 w).w := by
  simp only [parMain]
  split
  · exact updRun_inv _ _ _ (emit_inv _ h)
  · rename_i all heq
    have hloop := parDrive_inv env limP brk hasStop runId all.length
      (if p0 != [] then (limC all).filter (fun c => !(p0.contains c.id))
       else limC all) p0 (emit_inv Ev.fetchClients h)
    split
    · rename_i s1 p1 w1 heq2
      rw [heq2] at hloop
      exact hloop
    · rename_i s1 p1 w1 heq2
      rw [heq2] at hloop
      exact updRun_inv _ _ _ hloop

/-- C5. For every run of either orchestrator — fresh (zeroed stats) or
resumed from a checkpoint whose stats satisfy the bound — the final stats
satisfy `newPhones ≤ totalPhoneObservations`, and a store with no two
`CanonicalPhone` rows sharing an `e164` value stays that way: uniqueness is
checked against the whole store (`get_phone_by_number`), so it is global
across runs, not per-run. -/
theorem stats_bound_and_phone_uniqueness (env : Env)
    (lc lp mp : Option Nat) (resume hasStop : Bool) (w : W)
    (hu : phonesUnique w.db)
    (hb : ∀ st, w.ckpt = some st → st.stats.new_phones ≤ st.stats.total_phones) :
    (phonesUnique (seqCollect env lc lp mp resume hasStop w).w.db ∧
     (seqCollect env lc lp mp resume hasStop w).stats.new_phones
       ≤ (seqCollect env lc lp mp resume hasStop w).stats.total_phones) ∧
    (phonesUnique (parCollect env lc lp mp resume hasStop w).w.db ∧
     (parCollect env lc lp mp resume hasStop w).stats.new_phones
       ≤ (parCollect env lc lp mp resume hasStop w).stats.total_phones) := by
  constructor
  · cases resume with
    | false =>
        simp only [seqCollect, Bool.false_eq_true, if_false]
        exact seqMain_inv env _ _ _ hasStop _ _ ⟨hu, Nat.le_refl 0⟩
    | true =>
        cases hck : w.ckpt with
        | none =>
            simp only [seqCollect, hck]
            exact seqMain_inv env _ _ _ hasStop _ _ ⟨hu, Nat.le_refl 0⟩
        | some st =>
            simp only [seqCollect, hck]
            exact seqMain_inv env _ _ _ hasStop _ _ ⟨hu, hb st hck⟩
  · cases resume with
    | false =>
        simp only [parCollect, Bool.false_eq_true, if_false]
        exact parMain_inv env _ _ _ hasStop _ _ ⟨hu, Nat.le_refl 0⟩
    | true =>
        cases hck : w.ckpt with
        | none =>
            simp only [parCollect, hck]
            exact parMain_inv env _ _ _ hasStop _ _ ⟨hu, Nat.le_refl 0⟩
        | some st =>
            simp only [parCollect, hck]
            exact parMain_inv env _ _ _ hasStop _ _ ⟨hu, hb st hck⟩

/-- One client, one project, three raw phone records over pages
`[[p1, p2], [p3], []]`; ten-digit national numbers are valid. -/
def envPages : Env :=
  ⟨Except.ok [⟨1, "a"⟩],
   fun _ => Except.ok [⟨10, "p1"⟩],
   fun pj => if pj == 10 then
      [Except.ok [⟨"89123456789", "t1"⟩, ⟨"89123456780", "t2"⟩],
       Except.ok [⟨"89123456781", "t3"⟩], Except.ok []] else [],
   fun _ => false, vTen⟩

/-- Witness for C5 on a concrete run that inserts three phones. -/
theorem stats_bound_and_phone_uniqueness_witness :
    (phonesUnique (seqCollect envPages none none none false false w0).w.db ∧
     (seqCollect envPages none none none false false w0).stats.new_phones
       ≤ (seqCollect envPages none none none false false w0).stats.total_phones) ∧
    (phonesUnique (parCollect envPages none none none false false w0).w.db ∧
     (parCollect envPages none none none false false w0).stats.new_phones
       ≤ (parCollect envPages none none none false false w0).stats.total_phones) :=
  stats_bound_and_phone_uniqueness envPages none none none false false w0
    List.Pairwise.nil (fun st h => by cases h)

/-! ## C6: pagination is consecutive and halts exactly at empty page or bound -/

/-- All page results of a project are successful fetches. -/
def pagesOk (l : List (Except Unit (List PhoneRec))) : Bool :=
  l.all (fun e => match e with | .ok _ => true | .error _ => false)

/-- The fetched page `k` of `projectId` holds at least one record. -/
def pageData (env : Env) (projectId k : Nat) : Bool :=
  match getPage env projectId k with
  | .ok (_ :: _) => true
  | _ => false

lemma getPage_ok {env : Env} {projectId : Nat}
    (hok : pagesOk (env.phonePages projectId) = true) (k : Nat) :
    ∃ recs, getPage env projectId k = Except.ok recs := by
  unfold getPage
  rw [List.getD_eq_getElem?_getD]
  cases hg : (env.phonePages projectId)[k - 1]? with
  | none => exact ⟨[], rfl⟩
  | some e =>
      have hmem : e ∈ env.phonePages projectId := List.getElem?_mem hg
      have := (List.all_eq_true.mp hok) e hmem
      cases e with
      | error u => simp at this
      | ok recs => exact ⟨recs, rfl⟩

lemma pagesFetched_append (projectId : Nat) (t1 t2 : List Ev) :
    pagesFetched projectId (t1 ++ t2)
      = pagesFetched projectId t1 ++ pagesFetched projectId t2 :=
  List.filterMap_append t1 t2 _

lemma pagesFetched_fetch (projectId pg : Nat) :
    pagesFetched projectId [Ev.fetchPhones projectId pg] = [pg] := by
  simp [pagesFetched]

lemma pagesFetched_sleep (projectId : Nat) :
    pagesFetched projectId [Ev.sleepDelay] = [] := rfl

lemma processPhone_trace (valid : List Char → Bool) (runId projectId : Nat)
    (rec : PhoneRec) (s : Stats) (w : W) :
    (processPhone valid runId projectId rec s w).2.trace = w.trace := by
  unfold processPhone
  split
  · split <;> rfl
  · rfl

lemma processPhones_trace (valid : List Char → Bool) (runId projectId : Nat)
    (recs : List PhoneRec) :
    ∀ (s : Stats) (w : W),
      (processPhones valid runId projectId recs s w).2.trace = w.trace := by
  induction recs with
  | nil => intro s w; rfl
  | cons r rest ih =>
      intro s w
      simp only [processPhones]
      rw [ih, processPhone_trace]

/-- Membership characterization of the pages fetched by the pagination loop,
relative to a starting page, given a halting point within the fuel. -/
lemma seqPageLoop_mem (env : Env) (brk : Nat → Bool) (runId projectId : Nat)
    (hok : pagesOk (env.phonePages projectId) = true) :
    ∀ (fuel page : Nat) (s : Stats) (w : W),
      (∃ k, page ≤ k ∧ k < page + fuel ∧
        (brk k = true ∨ pageData env projectId k = false)) →
      ∀ m, (m ∈ pagesFetched projectId
          (seqPageLoop env brk false runId projectId fuel page s w).w.trace) ↔
        (m ∈ pagesFetched projectId w.trace ∨
          (page ≤ m ∧ brk m = false ∧
            ∀ j, page ≤ j → j < m →
              (brk j = false ∧ pageData env projectId j = true))) := by
  intro fuel
  induction fuel with
  | zero =>
      intro page s w hhalt m
      obtain ⟨k, hk1, hk2, _⟩ := hhalt
      omega
  | succ n ih =>
      intro page s w hhalt m
      simp only [seqPageLoop, poll, Bool.false_eq_true, if_false]
      by_cases hbrk : brk page = true
      · rw [if_pos hbrk]
        constructor
        · intro hm; exact Or.inl hm
        · rintro (hm | ⟨hpm, hbm, hall⟩)
          · exact hm
          · rcases Nat.eq_or_lt_of_le hpm with rfl | hlt
            · rw [hbrk] at hbm; cases hbm
            · rw [(hall page (Nat.le_refl page) hlt).1] at hbrk; cases hbrk
      · rw [if_neg hbrk]
        obtain ⟨recs0, hpg⟩ := getPage_ok hok page
        rw [hpg]
        have hw1 : pagesFetched projectId
            (emit (Ev.fetchPhones projectId page) w).trace
            = pagesFetched projectId w.trace ++ [page] := by
          show pagesFetched projectId (w.trace ++ [Ev.fetchPhones projectId page]) = _
          rw [pagesFetched_append, pagesFetched_fetch]
        have hbrkf : brk page = false := by simpa using hbrk
        cases recs0 with
        | nil =>
            have hdata : pageData env projectId page = false := by
              unfold pageData
              rw [hpg]
            show (m ∈ pagesFetched projectId
              (emit (Ev.fetchPhones projectId page) w).trace) ↔ _
            constructor
            · intro hm
              rw [hw1] at hm
              rcases List.mem_append.mp hm with hm | hm
              · exact Or.inl hm
              · have hmp : m = page := List.mem_singleton.mp hm
                subst hmp
                exact Or.inr ⟨Nat.le_refl m, hbrkf, fun j h1 h2 => absurd h2 (by omega)⟩
            · rintro (hm | ⟨hpm, hbm, hall⟩)
              · rw [hw1]
                exact List.mem_append_left _ hm
              · rcases Nat.eq_or_lt_of_le hpm with rfl | hlt
                · rw [hw1]
                  exact List.mem_append_right _ (List.mem_singleton.mpr rfl)
                · rw [(hall page (Nat.le_refl page) hlt).2] at hdata
                  cases hdata
        | cons r rest =>
            have hdata : pageData env projectId page = true := by
              unfold pageData
              rw [hpg]
            have hhalt2 : ∃ k, page + 1 ≤ k ∧ k < (page + 1) + n ∧
                (brk k = true ∨ pageData env projectId k = false) := by
              obtain ⟨k, hk1, hk2, hk3⟩ := hhalt
              refine ⟨k, ?_, by omega, hk3⟩
              rcases Nat.eq_or_lt_of_le hk1 with rfl | hlt
              · rcases hk3 with hk3 | hk3
                · rw [hk3] at hbrk; cases hbrk rfl
                · rw [hk3] at hdata; cases hdata
              · omega
            have hrec := ih (page + 1)
              (processPhones env.valid runId projectId (r :: rest) s
                (emit (Ev.fetchPhones projectId page) w)).1
              (emit Ev.sleepDelay
                (processPhones env.valid runId projectId (r :: rest) s
                  (emit (Ev.fetchPhones projectId page) w)).2) hhalt2 m
            have hw2 : pagesFetched projectId
                (emit Ev.sleepDelay
                  (processPhones env.valid runId projectId (r :: rest) s
                    (emit (Ev.fetchPhones projectId page) w)).2).trace
                = pagesFetched projectId w.trace ++ [page] := by
              show pagesFetched projectId
                ((processPhones env.valid runId projectId (r :: rest) s
                  (emit (Ev.fetchPhones projectId page) w)).2.trace
                    ++ [Ev.sleepDelay]) = _
              rw [pagesFetched_append, processPhones_trace, hw1, pagesFetched_sleep,
                List.append_nil]
            rw [hw2] at hrec
            show (m ∈ pagesFetched projectId
              (seqPageLoop env brk false runId projectId n (page + 1)
                (processPhones env.valid runId projectId (r :: rest) s
                  (emit (Ev.fetchPhones projectId page) w)).1
                (emit Ev.sleepDelay
                  (processPhones env.valid runId projectId (r :: rest) s
                    (emit (Ev.fetchPhones projectId page) w)).2)).w.trace) ↔ _
            rw [hrec]
            constructor
            · rintro (hm | ⟨hpm, hbm, hall⟩)
              · rcases List.mem_append.mp hm with hm | hm
                · exact Or.inl hm
                · have hmp : m = page := List.mem_singleton.mp hm
                  subst hmp
                  exact Or.inr ⟨Nat.le_refl m, hbrkf,
                    fun j h1 h2 => absurd h2 (by omega)⟩
              · refine Or.inr ⟨by omega, hbm, fun j h1 h2 => ?_⟩
                rcases Nat.eq_or_lt_of_le h1 with rfl | hlt
                · exact ⟨hbrkf, hdata⟩
                · exact hall j (by omega) h2
            · rintro (hm | ⟨hpm, hbm, hall⟩)
              · exact Or.inl (List.mem_append_left _ hm)
              · rcases Nat.eq_or_lt_of_le hpm with rfl | hlt
                · exact Or.inl (List.mem_append_right _ (List.mem_singleton.mpr rfl))
                · exact Or.inr ⟨by omega, hbm, fun j h1 h2 => hall j (by omega) h2⟩

lemma pagesFetched_wait (projectId : Nat) :
    pagesFetched projectId [Ev.rlWait] = [] := rfl

/-- Membership characterization of the pages fetched by the parallel worker's
pagination loop, relative to a starting page, given a halting point within
the fuel. -/
lemma parPageLoop_mem (env : Env) (brk : Nat → Bool) (runId projectId : Nat)
    (hok : pagesOk (env.phonePages projectId) = true) :
    ∀ (fuel page : Nat) (cst : ClientStats) (w : W),
      (∃ k, page ≤ k ∧ k < page + fuel ∧
        (brk k = true ∨ pageData env projectId k = false)) →
      ∀ m, (m ∈ pagesFetched projectId
          (parPageLoop env brk false runId projectId fuel page cst w).w.trace) ↔
        (m ∈ pagesFetched projectId w.trace ∨
          (page ≤ m ∧ brk m = false ∧
            ∀ j, page ≤ j → j < m →
              (brk j = false ∧ pageData env projectId j = true))) := by
  intro fuel
  induction fuel with
  | zero =>
      intro page cst w hhalt m
      obtain ⟨k, hk1, hk2, _⟩ := hhalt
      omega
  | succ n ih =>
      intro page cst w hhalt m
      simp only [parPageLoop, poll, Bool.false_eq_true, if_false]
      by_cases hbrk : brk page = true
      · rw [if_pos hbrk]
        constructor
        · intro hm; exact Or.inl hm
        · rintro (hm | ⟨hpm, hbm, hall⟩)
          · exact hm
          · rcases Nat.eq_or_lt_of_le hpm with rfl | hlt
            · rw [hbrk] at hbm; cases hbm
            · rw [(hall page (Nat.le_refl page) hlt).1] at hbrk; cases hbrk
      · rw [if_neg hbrk]
        obtain ⟨recs0, hpg⟩ := getPage_ok hok page
        rw [hpg]
        have hw1 : pagesFetched projectId
            (emit (Ev.fetchPhones projectId page) (emit Ev.rlWait w)).trace
            = pagesFetched projectId w.trace ++ [page] := by
          show pagesFetched projectId
            ((w.trace ++ [Ev.rlWait]) ++ [Ev.fetchPhones projectId page]) = _
          rw [pagesFetched_append, pagesFetched_append, pagesFetched_wait,
            pagesFetched_fetch, List.append_nil]
        have hbrkf : brk page = false := by simpa using hbrk
        cases recs0 with
        | nil =>
            have hdata : pageData env projectId page = false := by
              unfold pageData
              rw [hpg]
            show (m ∈ pagesFetched projectId
              (emit (Ev.fetchPhones projectId page) (emit Ev.rlWait w)).trace) ↔ _
            constructor
            · intro hm
              rw [hw1] at hm
              rcases List.mem_append.mp hm with hm | hm
              · exact Or.inl hm
              · have hmp : m = page := List.mem_singleton.mp hm
                subst hmp
                exact Or.inr ⟨Nat.le_refl m, hbrkf, fun j h1 h2 => absurd h2 (by omega)⟩
            · rintro (hm | ⟨hpm, hbm, hall⟩)
              · rw [hw1]
                exact List.mem_append_left _ hm
              · rcases Nat.eq_or_lt_of_le hpm with rfl | hlt
                · rw [hw1]
                  exact List.mem_append_right _ (List.mem_singleton.mpr rfl)
                · rw [(hall page (Nat.le_refl page) hlt).2] at hdata
                  cases hdata
        | cons r rest =>
            have hdata : pageData env projectId page = true := by
              unfold pageData
              rw [hpg]
            have hhalt2 : ∃ k, page + 1 ≤ k ∧ k < (page + 1) + n ∧
                (brk k = true ∨ pageData env projectId k = false) := by
              obtain ⟨k, hk1, hk2, hk3⟩ := hhalt
              refine ⟨k, ?_, by omega, hk3⟩
              rcases Nat.eq_or_lt_of_le hk1 with rfl | hlt
              · rcases hk3 with hk3 | hk3
                · rw [hk3] at hbrk; cases hbrk rfl
                · rw [hk3] at hdata; cases hdata
              · omega
            have hrec := ih (page + 1)
              (parProcessPhones env.valid runId projectId (r :: rest) cst
                (emit (Ev.fetchPhones projectId page) (emit Ev.rlWait w))).1
              (parProcessPhones env.valid runId projectId (r :: rest) cst
                (emit (Ev.fetchPhones projectId page) (emit Ev.rlWait w))).2
              hhalt2 m
            have hw2 : pagesFetched projectId
                (parProcessPhones env.valid runId projectId (r :: rest) cst
                  (emit (Ev.fetchPhones projectId page) (emit Ev.rlWait w))).2.trace
                = pagesFetched projectId w.trace ++ [page] := by
              rw [parProcessPhones_trace]
              exact hw1
            rw [hw2] at hrec
            show (m ∈ pagesFetched projectId
              (parPageLoop env brk false runId projectId n (page + 1)
                (parProcessPhones env.valid runId projectId (r :: rest) cst
                  (emit (Ev.fetchPhones projectId page) (emit Ev.rlWait w))).1
                (parProcessPhones env.valid runId projectId (r :: rest) cst
                  (emit (Ev.fetchPhones projectId page)
                    (emit Ev.rlWait w))).2).w.trace) ↔ _
            rw [hrec]
            constructor
            · rintro (hm | ⟨hpm, hbm, hall⟩)
              · rcases List.mem_append.mp hm with hm | hm
                · exact Or.inl hm
                · have hmp : m = page := List.mem_singleton.mp hm
                  subst hmp
                  exact Or.inr ⟨Nat.le_refl m, hbrkf,
                    fun j h1 h2 => absurd h2 (by omega)⟩
              · refine Or.inr ⟨by omega, hbm, fun j h1 h2 => ?_⟩
                rcases Nat.eq_or_lt_of_le h1 with rfl | hlt
                · exact ⟨hbrkf, hdata⟩
                · exact hall j (by omega) h2
            · rintro (hm | ⟨hpm, hbm, hall⟩)
              · exact Or.inl (List.mem_append_left _ hm)
              · rcases Nat.eq_or_lt_of_le hpm with rfl | hlt
                · exact Or.inl (List.mem_append_right _ (List.mem_singleton.mpr rfl))
                · exact Or.inr ⟨by omega, hbm, fun j h1 h2 => hall j (by omega) h2⟩

/-- C6. For every project (with successfully fetching pages and no stop
request), the pagination loop of each orchestrator fetches exactly the
consecutive pages starting at 1 up to the first empty page or the max-page
bound: page `m` is fetched iff `m ≥ 1`, the configured bound does not exclude
`m`, and every earlier page was within the bound and returned data.  In
particular with `max_pages = N` only pages `1..N` are ever fetched, and no
page beyond an empty page is fetched. -/
theorem pagination_consecutive_and_halting (env : Env) (mp : Option Nat)
    (runId projectId : Nat) (s : Stats) (cst : ClientStats) (w : W)
    (hok : pagesOk (env.phonePages projectId) = true)
    (hstart : pagesFetched projectId w.trace = []) (m : Nat) :
    ((m ∈ pagesFetched projectId
        (seqPageLoop env (pageBreak mp) false runId projectId
          ((env.phonePages projectId).length + 1) 1 s w).w.trace) ↔
      (1 ≤ m ∧ pageBreak mp m = false ∧
        ∀ j, 1 ≤ j → j < m →
          (pageBreak mp j = false ∧ pageData env projectId j = true))) ∧
    ((m ∈ pagesFetched projectId
        (parPageLoop env (pageBreak mp) false runId projectId
          ((env.phonePages projectId).length + 1) 1 cst w).w.trace) ↔
      (1 ≤ m ∧ pageBreak mp m = false ∧
        ∀ j, 1 ≤ j → j < m →
          (pageBreak mp j = false ∧ pageData env projectId j = true))) := by
  have hhalt : ∃ k, 1 ≤ k ∧ k < 1 + ((env.phonePages projectId).length + 1) ∧
      (pageBreak mp k = true ∨ pageData env projectId k = false) := by
    refine ⟨(env.phonePages projectId).length + 1, by omega, by omega, Or.inr ?_⟩
    unfold pageData getPage
    rw [List.getD_eq_getElem?_getD]
    have : (env.phonePages projectId)[(env.phonePages projectId).length + 1 - 1]?
        = none := by
      apply List.getElem?_eq_none
      omega
    rw [this]
    rfl
  constructor
  · have := seqPageLoop_mem env (pageBreak mp) runId projectId hok
      ((env.phonePages projectId).length + 1) 1 s w hhalt m
    rw [hstart] at this
    simpa using this
  · have := parPageLoop_mem env (pageBreak mp) runId projectId hok
      ((env.phonePages projectId).length + 1) 1 cst w hhalt m
    rw [hstart] at this
    simpa using this

/-- Witness for C6 on the concrete page table `[[p1, p2], [p3], []]`, for
both pagination loops: page 2 is fetched; page 4 is not (page 3 is empty). -/
theorem pagination_consecutive_and_halting_witness :
    ((2 ∈ pagesFetched 10
        (seqPageLoop envPages (pageBreak none) false 1 10
          ((envPages.phonePages 10).length + 1) 1 zeroStats w0).w.trace) ∧
     ¬ (4 ∈ pagesFetched 10
        (seqPageLoop envPages (pageBreak none) false 1 10
          ((envPages.phonePages 10).length + 1) 1 zeroStats w0).w.trace)) ∧
    ((2 ∈ pagesFetched 10
        (parPageLoop envPages (pageBreak none) false 1 10
          ((envPages.phonePages 10).length + 1) 1 ⟨0, 0, 0⟩ w0).w.trace) ∧
     ¬ (4 ∈ pagesFetched 10
        (parPageLoop envPages (pageBreak none) false 1 10
          ((envPages.phonePages 10).length + 1) 1 ⟨0, 0, 0⟩ w0).w.trace)) :=
  ⟨⟨((pagination_consecutive_and_halting envPages none 1 10 zeroStats ⟨0, 0, 0⟩
        w0 (by decide) rfl 2).1).mpr (by decide),
    fun h => absurd (((pagination_consecutive_and_halting envPages none 1 10
        zeroStats ⟨0, 0, 0⟩ w0 (by decide) rfl 4).1).mp h) (by decide)⟩,
   ⟨((pagination_consecutive_and_halting envPages none 1 10 zeroStats ⟨0, 0, 0⟩
        w0 (by decide) rfl 2).2).mpr (by decide),
    fun h => absurd (((pagination_consecutive_and_halting envPages none 1 10
        zeroStats ⟨0, 0, 0⟩ w0 (by decide) rfl 4).2).mp h) (by decide)⟩⟩

/-! ## C7: per-client error isolation -/

/-- Whether processing client `cid` raises: with all phone pages fetching
successfully, the only source of a per-client exception is the project-list
fetch. -/
def clientRaises (env : Env) (cid : Nat) : Bool :=
  match env.projectsOf cid with
  | .error _ => true
  | .ok _ => false

lemma processPhone_errors (valid : List Char → Bool) (runId projectId : Nat)
    (rec : PhoneRec) (s : Stats) (w : W) :
    (processPhone valid runId projectId rec s w).1.errors = s.errors := by
  unfold processPhone
  split
  · split <;> rfl
  · rfl

lemma processPhones_errors (valid : List Char → Bool) (runId projectId : Nat)
    (recs : List PhoneRec) :
    ∀ (s : Stats) (w : W),
      (processPhones valid runId projectId recs s w).1.errors = s.errors := by
  induction recs with
  | nil => intro s w; rfl
  | cons r rest ih =>
      intro s w
      simp only [processPhones]
      rw [ih, processPhone_errors]

lemma seqPageLoop_ok_of_pages (env : Env) (brk : Nat → Bool)
    (runId projectId : Nat)
    (hok : pagesOk (env.phonePages projectId) = true) :
    ∀ (fuel page : Nat) (s : Stats) (w : W),
      ∃ s1 w1, seqPageLoop env brk false runId projectId fuel page s w
          = StepRes.ok s1 w1 ∧ s1.errors = s.errors := by
  intro fuel
  induction fuel with
  | zero => intro page s w; exact ⟨s, w, rfl, rfl⟩
  | succ n ih =>
      intro page s w
      simp only [seqPageLoop, poll, Bool.false_eq_true, if_false]
      by_cases hbrk : brk page = true
      · rw [if_pos hbrk]
        exact ⟨s, _, rfl, rfl⟩
      · rw [if_neg hbrk]
        obtain ⟨recs, hpg⟩ := getPage_ok hok page
        rw [hpg]
        cases recs with
        | nil => exact ⟨s, _, rfl, rfl⟩
        | cons r rest =>
            obtain ⟨s1, w1, heq, herr⟩ := ih (page + 1)
              (processPhones env.valid runId projectId (r :: rest) s
                (emit (Ev.fetchPhones projectId page) w)).1
              (emit Ev.sleepDelay
                (processPhones env.valid runId projectId (r :: rest) s
                  (emit (Ev.fetchPhones projectId page) w)).2)
            exact ⟨s1, w1, heq, by rw [herr, processPhones_errors]⟩

lemma seqProjectLoop_ok_of_pages (env : Env) (brk : Nat → Bool)
    (runId clientId : Nat)
    (hok : ∀ pj, pagesOk (env.phonePages pj) = true) :
    ∀ (ps : List ProjectT) (s : Stats) (w : W),
      ∃ s1 w1, seqProjectLoop env brk false runId clientId ps s w
          = StepRes.ok s1 w1 ∧ s1.errors = s.errors := by
  intro ps
  induction ps with
  | nil => intro s w; exact ⟨s, w, rfl, rfl⟩
  | cons p rest ih =>
      intro s w
      simp only [seqProjectLoop]
      obtain ⟨s1, w1, heq, herr⟩ := seqPageLoop_ok_of_pages env brk runId p.id
        (hok p.id) ((env.phonePages p.id).length + 1) 1 s
        (emit (Ev.upsertProject p.id)
          { w with db := w.db.insert_project p.id p.name clientId })
      rw [heq]
      obtain ⟨s2, w2, heq2, herr2⟩ := ih s1 w1
      exact ⟨s2, w2, heq2, by rw [herr2, herr]⟩

lemma seqClientBody_classify (env : Env) (limP : List ProjectT → List ProjectT)
    (brk : Nat → Bool) (runId : Nat)
    (hok : ∀ pj, pagesOk (env.phonePages pj) = true)
    (c : ClientT) (s : Stats) (w : W) :
    (clientRaises env c.id = true ∧
      ∃ w1, seqClientBody env limP brk false runId c s w = StepRes.exc s w1) ∨
    (clientRaises env c.id = false ∧
      ∃ s1 w1, seqClientBody env limP brk false runId c s w = StepRes.ok s1 w1 ∧
        s1.errors = s.errors) := by
  cases hpj : env.projectsOf c.id with
  | error u =>
      left
      refine ⟨by unfold clientRaises; rw [hpj],
        emit (Ev.fetchProjects c.id)
          (emit (Ev.upsertClient c.id)
            { w with db := w.db.insert_client c.id c.username }), ?_⟩
      simp only [seqClientBody]
      rw [hpj]
  | ok ps =>
      right
      obtain ⟨s1, w1, heq, herr⟩ := seqProjectLoop_ok_of_pages env brk runId c.id
        hok (limP ps) s
        (emit Ev.sleepDelay
          (emit (Ev.fetchProjects c.id)
            (emit (Ev.upsertClient c.id)
              { w with db := w.db.insert_client c.id c.username })))
      refine ⟨by unfold clientRaises; rw [hpj], s1, w1, ?_, herr⟩
      simp only [seqClientBody]
      rw [hpj]
      exact heq

lemma seqClientLoop_isolation (env : Env) (limP : List ProjectT → List ProjectT)
    (brk : Nat → Bool) (runId totalOrig : Nat)
    (hok : ∀ pj, pagesOk (env.phonePages pj) = true) :
    ∀ (cs : List ClientT) (idx : Nat) (s : Stats) (p : List Nat) (w : W),
      ∃ s1 p1 w1,
        seqClientLoop env limP brk false runId totalOrig cs idx s p w
          = LoopRes.done s1 p1 w1 ∧
        s1.errors = s.errors + cs.countP (fun c => clientRaises env c.id) ∧
        ∀ d, d ∈ p1 ↔
          (d ∈ p ∨ ∃ c, c ∈ cs ∧ c.id = d ∧ clientRaises env c.id = false) := by
  intro cs
  induction cs with
  | nil =>
      intro idx s p w
      refine ⟨s, p, w, rfl, by simp, fun d => by simp⟩
  | cons c rest ih =>
      intro idx s p w
      simp only [seqClientLoop, poll, Bool.false_eq_true, if_false]
      rcases seqClientBody_classify env limP brk runId hok c s w with
        ⟨hcr, w1, hbody⟩ | ⟨hcr, s1, w1, hbody, herr1⟩
      · rw [hbody]
        obtain ⟨s2, p2, w2, heq, herr, hmem⟩ :=
          ih (idx + 1) { s with errors := s.errors + 1 } p w1
        refine ⟨s2, p2, w2, heq, ?_, ?_⟩
        · rw [herr]
          show s.errors + 1 + rest.countP (fun c => clientRaises env c.id) = _
          simp [List.countP_cons, hcr]
          omega
        · intro d
          rw [hmem d]
          constructor
          · rintro (hd | ⟨c1, hc1, hcid, hcrf⟩)
            · exact Or.inl hd
            · exact Or.inr ⟨c1, List.mem_cons_of_mem _ hc1, hcid, hcrf⟩
          · rintro (hd | ⟨c1, hc1, hcid, hcrf⟩)
            · exact Or.inl hd
            · rcases List.mem_cons.mp hc1 with rfl | hc1
              · rw [hcrf] at hcr; cases hcr
              · exact Or.inr ⟨c1, hc1, hcid, hcrf⟩
      · rw [hbody]
        obtain ⟨s2, p2, w2, heq, herr, hmem⟩ :=
          ih (idx + 1) s1 (p.insert c.id)
            (if idx % 5 == 0 then saveCkpt runId totalOrig (p.insert c.id) s1 w1
             else w1)
        refine ⟨s2, p2, w2, heq, ?_, ?_⟩
        · rw [herr, herr1]
          simp [List.countP_cons, hcr]
        · intro d
          rw [hmem d]
          constructor
          · rintro (hd | ⟨c1, hc1, hcid, hcrf⟩)
            · rcases List.mem_insert_iff.mp hd with rfl | hd
              · exact Or.inr ⟨c, List.mem_cons_self c rest, rfl, hcr⟩
              · exact Or.inl hd
            · exact Or.inr ⟨c1, List.mem_cons_of_mem _ hc1, hcid, hcrf⟩
          · rintro (hd | ⟨c1, hc1, hcid, hcrf⟩)
            · exact Or.inl (List.mem_insert_iff.mpr (Or.inr hd))
            · rcases List.mem_cons.mp hc1 with rfl | hc1
              · exact Or.inl (List.mem_insert_iff.mpr (Or.inl hcid.symm))
              · exact Or.inr ⟨c1, hc1, hcid, hcrf⟩

lemma parPageLoop_ok_of_pages (env : Env) (brk : Nat → Bool)
    (runId projectId : Nat)
    (hok : pagesOk (env.phonePages projectId) = true) :
    ∀ (fuel page : Nat) (cst : ClientStats) (w : W),
      ∃ c1 w1, parPageLoop env brk false runId projectId fuel page cst w
          = ParStep.ok c1 w1 := by
  intro fuel
  induction fuel with
  | zero => intro page cst w; exact ⟨cst, w, rfl⟩
  | succ n ih =>
      intro page cst w
      simp only [parPageLoop, poll, Bool.false_eq_true, if_false]
      by_cases hbrk : brk page = true
      · rw [if_pos hbrk]
        exact ⟨cst, _, rfl⟩
      · rw [if_neg hbrk]
        obtain ⟨recs, hpg⟩ := getPage_ok hok page
        rw [hpg]
        cases recs with
        | nil => exact ⟨cst, _, rfl⟩
        | cons r rest =>
            obtain ⟨c1, w1, heq⟩ := ih (page + 1)
              (parProcessPhones env.valid runId projectId (r :: rest) cst
                (emit (Ev.fetchPhones projectId page) (emit Ev.rlWait w))).1
              (parProcessPhones env.valid runId projectId (r :: rest) cst
                (emit (Ev.fetchPhones projectId page) (emit Ev.rlWait w))).2
            exact ⟨c1, w1, heq⟩

lemma parProjectLoop_ok_of_pages (env : Env) (brk : Nat → Bool)
    (runId clientId : Nat)
    (hok : ∀ pj, pagesOk (env.phonePages pj) = true) :
    ∀ (ps : List ProjectT) (cst : ClientStats) (w : W),
      ∃ c1 w1, parProjectLoop env brk false runId clientId ps cst w
          = ParStep.ok c1 w1 := by
  intro ps
  induction ps with
  | nil => intro cst w; exact ⟨cst, w, rfl⟩
  | cons p rest ih =>
      intro cst w
      simp only [parProjectLoop, poll, Bool.false_eq_true, if_false]
      obtain ⟨c1, w1, heq⟩ := parPageLoop_ok_of_pages env brk runId p.id
        (hok p.id) ((env.phonePages p.id).length + 1) 1
        { cst with projects := cst.projects + 1 }
        (emit (Ev.upsertProject p.id)
          { (emit Ev.rlWait w) with
              db := (emit Ev.rlWait w).db.insert_project p.id p.name clientId })
      rw [heq]
      obtain ⟨c2, w2, heq2⟩ := ih c1 w1
      exact ⟨c2, w2, heq2⟩

lemma parProcessClient_classify (env : Env)
    (limP : List ProjectT → List ProjectT) (brk : Nat → Bool) (runId : Nat)
    (hok : ∀ pj, pagesOk (env.phonePages pj) = true) (c : ClientT) (w : W) :
    (clientRaises env c.id = true ∧
      ∃ w1, parProcessClient env limP brk false runId c w = ParStep.exc w1) ∨
    (clientRaises env c.id = false ∧
      ∃ c1 w1, parProcessClient env limP brk false runId c w
          = ParStep.ok c1 w1) := by
  cases hpj : env.projectsOf c.id with
  | error u =>
      left
      refine ⟨by unfold clientRaises; rw [hpj],
        emit (Ev.fetchProjects c.id)
          (emit Ev.rlWait
            (emit (Ev.upsertClient c.id)
              { (emit Ev.rlWait w) with
                  db := (emit Ev.rlWait w).db.insert_client c.id c.username })), ?_⟩
      simp only [parProcessClient]
      rw [hpj]
  | ok ps =>
      right
      obtain ⟨c1, w1, heq⟩ := parProjectLoop_ok_of_pages env brk runId c.id hok
        (limP ps) ⟨0, 0, 0⟩
        (emit (Ev.fetchProjects c.id)
          (emit Ev.rlWait
            (emit (Ev.upsertClient c.id)
              { (emit Ev.rlWait w) with
                  db := (emit Ev.rlWait w).db.insert_client c.id c.username })))
      refine ⟨by unfold clientRaises; rw [hpj], c1, w1, ?_⟩
      simp only [parProcessClient]
      rw [hpj]
      exact heq

lemma parDrive_isolation (env : Env) (limP : List ProjectT → List ProjectT)
    (brk : Nat → Bool) (runId totalOrig : Nat)
    (hok : ∀ pj, pagesOk (env.phonePages pj) = true) :
    ∀ (cs : List ClientT) (s : Stats) (p : List Nat) (w : W),
      ∃ s1 p1 w1,
        parDrive env limP brk false runId totalOrig cs s p w
          = ParLoopRes.done s1 p1 w1 ∧
        s1.errors = s.errors + cs.countP (fun c => clientRaises env c.id) ∧
        ∀ d, d ∈ p1 ↔
          (d ∈ p ∨ ∃ c, c ∈ cs ∧ c.id = d ∧ clientRaises env c.id = false) := by
  intro cs
  induction cs with
  | nil =>
      intro s p w
      refine ⟨s, p, w, rfl, by simp, fun d => by simp⟩
  | cons c rest ih =>
      intro s p w
      simp only [parDrive, poll, Bool.false_eq_true, if_false]
      rcases parProcessClient_classify env limP brk runId hok c w with
        ⟨hcr, w1, hbody⟩ | ⟨hcr, cst, w1, hbody⟩
      · rw [hbody]
        simp only [ParStep.w]
        obtain ⟨s2, p2, w2, heq, herr, hmem⟩ :=
          ih { s with errors := s.errors + 1 } p w1
        refine ⟨s2, p2, w2, heq, ?_, ?_⟩
        · rw [herr]
          show s.errors + 1 + rest.countP (fun c => clientRaises env c.id) = _
          simp [List.countP_cons, hcr]
          omega
        · intro d
          rw [hmem d]
          constructor
          · rintro (hd | ⟨c1, hc1, hcid, hcrf⟩)
            · exact Or.inl hd
            · exact Or.inr ⟨c1, List.mem_cons_of_mem _ hc1, hcid, hcrf⟩
          · rintro (hd | ⟨c1, hc1, hcid, hcrf⟩)
            · exact Or.inl hd
            · rcases List.mem_cons.mp hc1 with rfl | hc1
              · rw [hcrf] at hcr; cases hcr
              · exact Or.inr ⟨c1, hc1, hcid, hcrf⟩
      · rw [hbody]
        simp only [ParStep.w]
        obtain ⟨s2, p2, w2, heq, herr, hmem⟩ :=
          ih { s with total_phones := s.total_phones + cst.phones,
                      new_phones := s.new_phones + cst.new_phones,
                      projects_count := s.projects_count + cst.projects }
            (p.insert c.id)
            (if (p.insert c.id).length % 10 == 0 then
              parSaveState runId totalOrig (p.insert c.id)
                { s with total_phones := s.total_phones + cst.phones,
                         new_phones := s.new_phones + cst.new_phones,
                         projects_count := s.projects_count + cst.projects } w1
             else w1)
        refine ⟨s2, p2, w2, heq, ?_, ?_⟩
        · rw [herr]
          show s.errors + rest.countP (fun c => clientRaises env c.id) = _
          simp [List.countP_cons, hcr]
        · intro d
          rw [hmem d]
          constructor
          · rintro (hd | ⟨c1, hc1, hcid, hcrf⟩)
            · rcases List.mem_insert_iff.mp hd with rfl | hd
              · exact Or.inr ⟨c, List.mem_cons_self c rest, rfl, hcr⟩
              · exact Or.inl hd
            · exact Or.inr ⟨c1, List.mem_cons_of_mem _ hc1, hcid, hcrf⟩
          · rintro (hd | ⟨c1, hc1, hcid, hcrf⟩)
            · exact Or.inl (List.mem_insert_iff.mpr (Or.inr hd))
            · rcases List.mem_cons.mp hc1 with rfl | hc1
              · exact Or.inl (List.mem_insert_iff.mpr (Or.inl hcid.symm))
              · exact Or.inr ⟨c1, hc1, hcid, hcrf⟩

/-- C7. Per-client error isolation, in both orchestrators: with no stop
request and all phone pages fetching successfully, the client traversal
always runs to completion (no per-client exception aborts it); the final
error counter is the starting one plus exactly one per raising client in the
list; and a client id ends up processed iff it was already processed or
belongs to a listed client that did not raise — so a raising client is
absent and every other listed client is processed. -/
theorem per_client_error_isolation (env : Env)
    (limP : List ProjectT → List ProjectT) (brk : Nat → Bool)
    (runId totalOrig : Nat) (cs : List ClientT) (idx : Nat) (s : Stats)
    (p : List Nat) (w : W)
    (hok : ∀ pj, pagesOk (env.phonePages pj) = true) :
    (∃ s1 p1 w1,
        seqClientLoop env limP brk false runId totalOrig cs idx s p w
          = LoopRes.done s1 p1 w1 ∧
        s1.errors = s.errors + cs.countP (fun c => clientRaises env c.id) ∧
        ∀ d, d ∈ p1 ↔
          (d ∈ p ∨ ∃ c, c ∈ cs ∧ c.id = d ∧ clientRaises env c.id = false)) ∧
    (∃ s2 p2 w2,
        parDrive env limP brk false runId totalOrig cs s p w
          = ParLoopRes.done s2 p2 w2 ∧
        s2.errors = s.errors + cs.countP (fun c => clientRaises env c.id) ∧
        ∀ d, d ∈ p2 ↔
          (d ∈ p ∨ ∃ c, c ∈ cs ∧ c.id = d ∧ clientRaises env c.id = false)) :=
  ⟨seqClientLoop_isolation env limP brk runId totalOrig hok cs idx s p w,
   parDrive_isolation env limP brk runId totalOrig hok cs s p w⟩

/-- The clients `[A, B, C]` of the spec scenario, client B raising on its
project-list fetch. -/
def csABC : List ClientT := [⟨1, "a"⟩, ⟨2, "b"⟩, ⟨3, "c"⟩]

def envABC : Env :=
  ⟨Except.ok csABC,
   fun cid => if cid == 2 then Except.error () else Except.ok [],
   fun _ => [],
   fun _ => false,
   vTen⟩

/-- Witness for C7 on the scenario `[A, B, C]` with B raising: both loops
finish with exactly one error, A and C processed and B absent. -/
theorem per_client_error_isolation_witness :
    ((seqClientLoop envABC (fun ps => ps) (pageBreak none) false 1 3 csABC 1
        zeroStats [] w0).stats.errors = 1 ∧
      1 ∈ (seqClientLoop envABC (fun ps => ps) (pageBreak none) false 1 3 csABC
        1 zeroStats [] w0).proc ∧
      ¬ 2 ∈ (seqClientLoop envABC (fun ps => ps) (pageBreak none) false 1 3
        csABC 1 zeroStats [] w0).proc ∧
      3 ∈ (seqClientLoop envABC (fun ps => ps) (pageBreak none) false 1 3 csABC
        1 zeroStats [] w0).proc) ∧
    ((parDrive envABC (fun ps => ps) (pageBreak none) false 1 3 csABC
        zeroStats [] w0).stats.errors = 1 ∧
      1 ∈ (parDrive envABC (fun ps => ps) (pageBreak none) false 1 3 csABC
        zeroStats [] w0).proc ∧
      ¬ 2 ∈ (parDrive envABC (fun ps => ps) (pageBreak none) false 1 3 csABC
        zeroStats [] w0).proc ∧
      3 ∈ (parDrive envABC (fun ps => ps) (pageBreak none) false 1 3 csABC
        zeroStats [] w0).proc) := by
  obtain ⟨⟨s1, p1, w1, heq1, herr1, hmem1⟩, s2, p2, w2, heq2, herr2, hmem2⟩ :=
    per_client_error_isolation envABC (fun ps => ps) (pageBreak none) 1 3 csABC
      1 zeroStats [] w0 (fun pj => rfl)
  rw [heq1, heq2]
  simp only [LoopRes.stats, LoopRes.proc, ParLoopRes.stats, ParLoopRes.proc]
  refine ⟨⟨?_, ?_, ?_, ?_⟩, ?_, ?_, ?_, ?_⟩
  · rw [herr1]; decide
  · exact (hmem1 1).mpr (Or.inr ⟨⟨1, "a"⟩, by decide, rfl, by decide⟩)
  · intro h
    rcases (hmem1 2).mp h with hd | ⟨c1, hc1, hcid, hcrf⟩
    · exact absurd hd (by decide)
    · simp [csABC] at hc1
      rcases hc1 with rfl | rfl | rfl
      · exact absurd hcid (by decide)
      · exact absurd hcrf (by decide)
      · exact absurd hcid (by decide)
  · exact (hmem1 3).mpr (Or.inr ⟨⟨3, "c"⟩, by decide, rfl, by decide⟩)
  · rw [herr2]; decide
  · exact (hmem2 1).mpr (Or.inr ⟨⟨1, "a"⟩, by decide, rfl, by decide⟩)
  · intro h
    rcases (hmem2 2).mp h with hd | ⟨c1, hc1, hcid, hcrf⟩
    · exact absurd hd (by decide)
    · simp [csABC] at hc1
      rcases hc1 with rfl | rfl | rfl
      · exact absurd hcid (by decide)
      · exact absurd hcrf (by decide)
      · exact absurd hcid (by decide)
  · exact (hmem2 3).mpr (Or.inr ⟨⟨3, "c"⟩, by decide, rfl, by decide⟩)

end CRM
